import Mathlib

/-!
# RIPEMD-160 digest program: byte buffer, padding, compression, formatting

A shallow embedding of `byteBuffer.c`, `ripeMD.c` and the driver `hash.c`, followed
by the definitions the specification gives in words and by the theorems that relate
the two.

* `byte` (`unsigned char`) values are natural numbers below `256`;
* `longword`, `unsigned int` values are natural numbers below `2 ^ 32`, and
  every C operation that can leave that range is followed by `% 2 ^ 32`;
* `int` values that can be negative are integers (`Int`), with the C remainder
  `%` being `Int.tmod` (truncation towards zero);
* a `ByteBuffer` keeps the three fields of the C struct.  The field `data` is
  the list of the cells of the heap array that have been written so far (the
  array cell `data[ i ]` is the `i`-th element of the list); cells never written
  hold no defined value and are not part of the list.  Allocation is assumed
  to succeed, and a write lands at its index whatever the capacity is.
-/

set_option maxRecDepth 100000

namespace RipeMD

/-! ## byteBuffer.h / byteBuffer.c -/

/-- The macro `INITIAL_BUFFER_CAPACITY`. -/
def INITIAL_BUFFER_CAPACITY : Nat := 5

/-- The macro `BBITS`: number of bits in a byte. -/
def BBITS : Nat := 8

/-- Range of `unsigned int` and `longword`: arithmetic is modulo `2 ^ 32`. -/
def WORD : Nat := 2 ^ 32

/-- The struct `ByteBuffer`: `data` holds the written cells of the heap array,
`len` and `cap` are the two `unsigned int` fields. -/
structure ByteBuffer where
  data : List Nat
  len : Nat
  cap : Nat
deriving DecidableEq, Repr

/-- The function `createBuffer`: no cell written yet, length zero, capacity
`INITIAL_BUFFER_CAPACITY`. -/
def createBuffer : ByteBuffer :=
  { data := [], len := 0, cap := INITIAL_BUFFER_CAPACITY }

/-- The assignment `data[ i ] = b` on the heap array: an already written cell
is overwritten, the first unwritten cell is appended. -/
def store (data : List Nat) (i : Nat) (b : Nat) : List Nat :=
  if i < data.length then data.set i b else data ++ [b]

/-- The function `addByte`: when `len >= cap` the capacity is doubled (as an
`unsigned int`), then `b`, converted to `byte`, is written at index `len` and
`len` is incremented (as an `unsigned int`).  The store is taken to land in cell `len`,
which is what the C code does as long as `len` is below the capacity after the growth
test; `addByteChecked` below enforces that bound. -/
def addByte (buffer : ByteBuffer) (b : Nat) : ByteBuffer :=
  let cap := if buffer.len ≥ buffer.cap then (buffer.cap * 2) % WORD else buffer.cap
  { data := store buffer.data buffer.len (b % 256)
    len := (buffer.len + 1) % WORD
    cap := cap }

/-- The function `readFile` on the outcome of `fopen`: `none` when the file
cannot be opened, otherwise the bytes that `fgetc` returns until `EOF`, each
appended with `addByte` to a fresh buffer. -/
def readFile (contents : Option (List Nat)) : Option ByteBuffer :=
  match contents with
  | none => none
  | some bytes => some (bytes.foldl addByte createBuffer)

/-! ## ripeMD.h / ripeMD.c -/

/-- The macro `BLOCK_BYTES`. -/
def BLOCK_BYTES : Nat := 64

/-- The macro `RIPE_ITERATIONS`. -/
def RIPE_ITERATIONS : Nat := 16

/-- The macro `NUM_C_ROTATIONS`. -/
def NUM_C_ROTATIONS : Nat := 10

/-- The macro `LAST_BYTE_IN_LAST_BLOCK`. -/
def LAST_BYTE_IN_LAST_BLOCK : Nat := 0x80

/-- The struct `HashState`: five `longword` fields. -/
structure HashState where
  A : Nat
  B : Nat
  C : Nat
  D : Nat
  E : Nat
deriving DecidableEq, Repr

/-- The function `initState`: overwrites all five fields. -/
def initState (_state : HashState) : HashState :=
  { A := 0x67452301, B := 0xEFCDAB89, C := 0x98BADCFE, D := 0x10325476, E := 0xC3D2E1F0 }

/-- Conversion of an `unsigned int` to `int` (`int length = buffer->len`):
values from `2 ^ 31` on become negative (two's complement). -/
def toInt (n : Nat) : Int :=
  if n % WORD < 2 ^ 31 then ((n % WORD : Nat) : Int) else ((n % WORD : Nat) : Int) - (WORD : Int)

/-- A loop `for ( ...; n iterations; ... ) addByte( buffer, 0 );`. -/
def addZeros : Nat → ByteBuffer → ByteBuffer
  | 0, buffer => buffer
  | n + 1, buffer => addZeros n (addByte buffer 0)

/-- Number of iterations of `for ( int i = length % BLOCK_BYTES + 1;
i < ( BLOCK_BYTES - BBITS ); i++ )`. -/
def zeroCount (length : Int) : Nat :=
  ((BLOCK_BYTES : Int) - (BBITS : Int) - (Int.tmod length (BLOCK_BYTES : Int) + 1)).toNat

/-- The function `padBuffer`. -/
def padBuffer (buffer : ByteBuffer) : ByteBuffer :=
  let numBits := (buffer.len * BBITS) % WORD
  let length := toInt buffer.len
  let buffer := addByte buffer LAST_BYTE_IN_LAST_BLOCK
  let buffer := addZeros (zeroCount length) buffer
  let buffer := addByte buffer ((numBits &&& 0x000000FF) >>> (BBITS * 0))
  let buffer := addByte buffer ((numBits &&& 0x0000FF00) >>> (BBITS * 1))
  let buffer := addByte buffer ((numBits &&& 0x00FF0000) >>> (BBITS * 2))
  let buffer := addByte buffer ((numBits &&& 0xFF000000) >>> (BBITS * 3))
  addZeros 4 buffer

/-- The C operator `~` on a `longword`. -/
def complement (a : Nat) : Nat := WORD - 1 - a

/-- The function `bitwiseF0`. -/
def bitwiseF0 (a b c : Nat) : Nat := a ^^^ b ^^^ c

/-- The function `bitwiseF1`. -/
def bitwiseF1 (a b c : Nat) : Nat := (a &&& b) ||| (complement a &&& c)

/-- The function `bitwiseF2`. -/
def bitwiseF2 (a b c : Nat) : Nat := (a ||| complement b) ^^^ c

/-- The function `bitwiseF3`. -/
def bitwiseF3 (a b c : Nat) : Nat := (a &&& c) ||| (b &&& complement c)

/-- The function `bitwiseF4`. -/
def bitwiseF4 (a b c : Nat) : Nat := a ^^^ (b ||| complement c)

/-- The `if`/`else if` chain of `rotateLeft` that selects the mask `shift`. -/
def rotateMask (s : Nat) : Nat :=
  if s = 1 then 0x80000000
  else if s = 2 then 0xC0000000
  else if s = 3 then 0xE0000000
  else if s = 4 then 0xF0000000
  else if s = 5 then 0xF8000000
  else if s = 6 then 0xFC000000
  else if s = 7 then 0xFE000000
  else if s = 8 then 0xFF000000
  else if s = 9 then 0xFF800000
  else if s = 10 then 0xFFC00000
  else if s = 11 then 0xFFE00000
  else if s = 12 then 0xFFF00000
  else if s = 13 then 0xFFF80000
  else if s = 14 then 0xFFFC0000
  else if s = 15 then 0xFFFE0000
  else 0x00000000

/-- The function `rotateLeft`, for a shift count `0 ≤ s ≤ 32` (C leaves other
counts undefined): `value << s | ( value & shift ) >> ( 32 - s )`, the left
shift truncated to 32 bits. -/
def rotateLeft (value : Nat) (s : Nat) : Nat :=
  ((value <<< s) % WORD) ||| ((value &&& rotateMask s) >>> (4 * BBITS - s))

/-- The function `hashIteration`; `f` is the `BitwiseFunction` pointer. -/
def hashIteration (state : HashState) (datum : Nat) (shift : Nat) (noise : Nat)
    (f : Nat → Nat → Nat → Nat) : HashState :=
  let a := (state.A + ((f state.B state.C state.D + datum) % WORD + noise) % WORD) % WORD
  let a := rotateLeft a shift
  let c := rotateLeft state.C NUM_C_ROTATIONS
  let a := (a + state.E) % WORD
  { A := state.E, B := a, C := state.B, D := c, E := state.D }

/-- The function `hashRound`: the loop over `i = 0 .. RIPE_ITERATIONS - 1`. -/
def hashRound (state : HashState) (data : List Nat) (perm : List Nat) (shift : List Nat)
    (noise : Nat) (f : Nat → Nat → Nat → Nat) : HashState :=
  (List.range RIPE_ITERATIONS).foldl
    (fun st i => hashIteration st (data.getD (perm.getD i 0) 0) (shift.getD i 0) noise f) state

/-! The local arrays and constants that `hashBlock` declares. -/

def leftPerm0 : List Nat := [0, 1, 2, 3, 4, 5, 6, 7, 8, 9, 10, 11, 12, 13, 14, 15]
def leftPerm1 : List Nat := [7, 4, 13, 1, 10, 6, 15, 3, 12, 0, 9, 5, 2, 14, 11, 8]
def leftPerm2 : List Nat := [3, 10, 14, 4, 9, 15, 8, 1, 2, 7, 0, 6, 13, 11, 5, 12]
def leftPerm3 : List Nat := [1, 9, 11, 10, 0, 8, 12, 4, 13, 3, 7, 15, 14, 5, 6, 2]
def leftPerm4 : List Nat := [4, 0, 5, 9, 7, 12, 2, 10, 14, 1, 3, 8, 11, 6, 15, 13]

def rightPerm0 : List Nat := [5, 14, 7, 0, 9, 2, 11, 4, 13, 6, 15, 8, 1, 10, 3, 12]
def rightPerm1 : List Nat := [6, 11, 3, 7, 0, 13, 5, 10, 14, 15, 8, 12, 4, 9, 1, 2]
def rightPerm2 : List Nat := [15, 5, 1, 3, 7, 14, 6, 9, 11, 8, 12, 2, 10, 0, 4, 13]
def rightPerm3 : List Nat := [8, 6, 4, 1, 3, 11, 15, 0, 5, 12, 2, 13, 9, 7, 10, 14]
def rightPerm4 : List Nat := [12, 15, 10, 4, 1, 5, 8, 7, 6, 2, 13, 14, 0, 3, 9, 11]

def leftShift0 : List Nat := [11, 14, 15, 12, 5, 8, 7, 9, 11, 13, 14, 15, 6, 7, 9, 8]
def leftShift1 : List Nat := [7, 6, 8, 13, 11, 9, 7, 15, 7, 12, 15, 9, 11, 7, 13, 12]
def leftShift2 : List Nat := [11, 13, 6, 7, 14, 9, 13, 15, 14, 8, 13, 6, 5, 12, 7, 5]
def leftShift3 : List Nat := [11, 12, 14, 15, 14, 15, 9, 8, 9, 14, 5, 6, 8, 6, 5, 12]
def leftShift4 : List Nat := [9, 15, 5, 11, 6, 8, 13, 12, 5, 12, 13, 14, 11, 8, 5, 6]

def rightShift0 : List Nat := [8, 9, 9, 11, 13, 15, 15, 5, 7, 7, 8, 11, 14, 14, 12, 6]
def rightShift1 : List Nat := [9, 13, 15, 7, 12, 8, 9, 11, 7, 7, 12, 7, 6, 15, 13, 11]
def rightShift2 : List Nat := [9, 7, 15, 11, 8, 6, 6, 14, 12, 13, 5, 14, 13, 13, 7, 5]
def rightShift3 : List Nat := [15, 5, 8, 11, 14, 14, 6, 14, 6, 9, 12, 9, 12, 5, 15, 8]
def rightShift4 : List Nat := [8, 5, 12, 9, 12, 5, 14, 6, 8, 13, 6, 5, 15, 13, 11, 11]

def leftNoise0 : Nat := 0x00000000
def leftNoise1 : Nat := 0x5A827999
def leftNoise2 : Nat := 0x6ED9EBA1
def leftNoise3 : Nat := 0x8F1BBCDC
def leftNoise4 : Nat := 0xA953FD4E

def rightNoise0 : Nat := 0x50A28BE6
def rightNoise1 : Nat := 0x5C4DD124
def rightNoise2 : Nat := 0x6D703EF3
def rightNoise3 : Nat := 0x7A6D76E9
def rightNoise4 : Nat := 0x00000000

/-- The nested loop of `hashBlock` that fills `longwordArray[ i ]`: the four
bytes `block[ 4 * i + j ]`, each shifted left by `j * BBITS`, or-ed together. -/
def longwordAt (block : List Nat) (i : Nat) : Nat :=
  (List.range 4).foldl
    (fun w j => w ||| ((block.getD (4 * i + j) 0) <<< (j * BBITS)) % WORD) 0

/-- The array `longwordArray` of `hashBlock`. -/
def longwordArray (block : List Nat) : List Nat :=
  (List.range RIPE_ITERATIONS).map (longwordAt block)

/-- The left line of `hashBlock`: five calls of `hashRound` on `leftSideRound`. -/
def leftSideRound (state : HashState) (data : List Nat) : HashState :=
  let s := hashRound state data leftPerm0 leftShift0 leftNoise0 bitwiseF0
  let s := hashRound s data leftPerm1 leftShift1 leftNoise1 bitwiseF1
  let s := hashRound s data leftPerm2 leftShift2 leftNoise2 bitwiseF2
  let s := hashRound s data leftPerm3 leftShift3 leftNoise3 bitwiseF3
  hashRound s data leftPerm4 leftShift4 leftNoise4 bitwiseF4

/-- The right line of `hashBlock`: five calls of `hashRound` on `rightSideRound`. -/
def rightSideRound (state : HashState) (data : List Nat) : HashState :=
  let s := hashRound state data rightPerm0 rightShift0 rightNoise0 bitwiseF4
  let s := hashRound s data rightPerm1 rightShift1 rightNoise1 bitwiseF3
  let s := hashRound s data rightPerm2 rightShift2 rightNoise2 bitwiseF2
  let s := hashRound s data rightPerm3 rightShift3 rightNoise3 bitwiseF1
  hashRound s data rightPerm4 rightShift4 rightNoise4 bitwiseF0

/-- The function `hashBlock`. -/
def hashBlock (state : HashState) (block : List Nat) : HashState :=
  let data := longwordArray block
  let l := leftSideRound state data
  let r := rightSideRound state data
  { A := ((state.B + l.C) % WORD + r.D) % WORD
    B := ((state.C + l.D) % WORD + r.E) % WORD
    C := ((state.D + l.E) % WORD + r.A) % WORD
    D := ((state.E + l.A) % WORD + r.B) % WORD
    E := ((state.A + l.B) % WORD + r.C) % WORD }

/-- The call `printf( "%02x", v )`: `v` in lower-case hexadecimal, padded on
the left with `0` to at least two digits. -/
def printf02x (v : Nat) : List Char :=
  let digits := Nat.toDigits 16 v
  List.replicate (2 - digits.length) '0' ++ digits

/-- The macro `PRINT_STATE_REVERSED`. -/
def PRINT_STATE_REVERSED (state : Nat) : List Char :=
  printf02x ((state &&& 0x000000FF) >>> (BBITS * 0)) ++
  printf02x ((state &&& 0x0000FF00) >>> (BBITS * 1)) ++
  printf02x ((state &&& 0x00FF0000) >>> (BBITS * 2)) ++
  printf02x ((state &&& 0xFF000000) >>> (BBITS * 3))

/-- The function `printHash`: the characters written to standard output. -/
def printHash (state : HashState) : List Char :=
  PRINT_STATE_REVERSED state.A ++
  PRINT_STATE_REVERSED state.B ++
  PRINT_STATE_REVERSED state.C ++
  PRINT_STATE_REVERSED state.D ++
  PRINT_STATE_REVERSED state.E ++
  ['\n']

/-! ## hash.c -/

/-- The inner loop of `main`: `block[ j ] = buffer->data[ i * BLOCK_BYTES + j ]`
for `j = 0 .. BLOCK_BYTES - 1`. -/
def blockAt (data : List Nat) (i : Nat) : List Nat :=
  (data.drop (i * BLOCK_BYTES)).take BLOCK_BYTES

/-- The outer loop of `main`: `hashBlock` on the blocks `0 .. numBlocks - 1`.  The index
`i * BLOCK_BYTES + j` is a natural number here; the `int` of the C code holds it exactly
as long as `numBlocks * BLOCK_BYTES ≤ 2 ^ 31`, the bound `hashBufferChecked` below
enforces. -/
def hashBlocks (hash : HashState) (data : List Nat) (numBlocks : Nat) : HashState :=
  (List.range numBlocks).foldl (fun h i => hashBlock h (blockAt data i)) hash

/-- The blocks that `main` passes to `hashBlock`, in order. -/
def blocksFed (buffer : ByteBuffer) : List (List Nat) :=
  (List.range (buffer.len / BLOCK_BYTES)).map (blockAt buffer.data)

/-- The part of `main` after a successful `readFile`: `padBuffer`, `initState`,
the block loop with `numBlocks = buffer->len / BLOCK_BYTES`, and `printHash`. -/
def hashBuffer (buffer : ByteBuffer) : List Char :=
  let buffer := padBuffer buffer
  let hash := initState { A := 0, B := 0, C := 0, D := 0, E := 0 }
  let numBlocks := buffer.len / BLOCK_BYTES
  printHash (hashBlocks hash buffer.data numBlocks)

/-- What a run of the program leaves behind: the exit status and the text on
standard output. -/
structure Outcome where
  status : Nat
  stdout : List Char
deriving DecidableEq, Repr

/-- The macro `EXIT_SUCCESS`. -/
def EXIT_SUCCESS : Nat := 0

/-- The macro `EXIT_FAILURE`. -/
def EXIT_FAILURE : Nat := 1

/-- The function `main` of `hash.c`; `contents` is what `fopen`, `fgetc` give
for `argv[ 1 ]` (`none`: the file cannot be opened). -/
def main (argc : Nat) (contents : Option (List Nat)) : Outcome :=
  if argc ≠ 2 then { status := EXIT_FAILURE, stdout := [] }
  else
    match readFile contents with
    | none => { status := EXIT_FAILURE, stdout := [] }
    | some buffer => { status := EXIT_SUCCESS, stdout := hashBuffer buffer }

/-- The text the program prints for a readable file holding `msg`. -/
def digest (msg : List Nat) : List Char :=
  hashBuffer (msg.foldl addByte createBuffer)

/-- The bytes a buffer holds: the cells `data[ 0 ] .. data[ len - 1 ]`. -/
def ByteBuffer.bytes (buffer : ByteBuffer) : List Nat :=
  buffer.data.take buffer.len

/-- The bytes `padBuffer` passes to `addByte`, in order, for a buffer whose
`len` field is `len`. -/
def padding (len : Nat) : List Nat :=
  let numBits := (len * BBITS) % WORD
  [LAST_BYTE_IN_LAST_BLOCK] ++ List.replicate (zeroCount (toInt len)) 0 ++
    [(numBits &&& 0x000000FF) >>> (BBITS * 0), (numBits &&& 0x0000FF00) >>> (BBITS * 1),
     (numBits &&& 0x00FF0000) >>> (BBITS * 2), (numBits &&& 0xFF000000) >>> (BBITS * 3)] ++
    List.replicate 4 0

/-- The last `n` bytes a buffer holds: the cells `data[ len - n ] .. data[ len - 1 ]`. -/
def ByteBuffer.lastBytes (buffer : ByteBuffer) (n : Nat) : List Nat :=
  buffer.bytes.drop (buffer.len - n)

/-- The integer `n` written as `width` bytes, least significant byte first. -/
def littleEndian (width : Nat) (n : Nat) : List Nat :=
  (List.range width).map (fun k => n / 256 ^ k % 256)

/-- A message of 56 bytes, each the letter `a`. -/
def message56 : List Nat := List.replicate 56 97

/-- A buffer that holds `n` zero bytes and is filled to its capacity. -/
def fullBuffer (n : Nat) : ByteBuffer :=
  { data := List.replicate n 0, len := n, cap := n }

/-! ## The formats the specification describes -/

/-- The sixteen lower-case hexadecimal digits, in order of value. -/
def hexDigits : List Char := "0123456789abcdef".toList

/-- The hexadecimal digit of value `d`. -/
def hexDigit (d : Nat) : Char := hexDigits.getD d '0'

/-- A byte as two zero-padded hexadecimal digits, high digit first. -/
def hexByte (b : Nat) : List Char := [hexDigit (b / 16), hexDigit (b % 16)]

/-- A 32-bit word as its four bytes, least significant byte first, each byte as two
hexadecimal digits. -/
def wordHex (w : Nat) : List Char :=
  hexByte (w % 256) ++ hexByte (w / 256 % 256) ++ hexByte (w / 256 ^ 2 % 256) ++
    hexByte (w / 256 ^ 3 % 256)

/-- The digest text of a chaining state: the words `A`, `B`, `C`, `D`, `E` in that
order, each as by `wordHex`. -/
def digestHex (state : HashState) : List Char :=
  wordHex state.A ++ wordHex state.B ++ wordHex state.C ++ wordHex state.D ++ wordHex state.E

/-- The published RIPEMD-160 digest of the empty message. -/
def emptyDigest : String := "9c1185a5c5e9fc54612808977ee8f548b2258d31"

/-! ## The compression function and the digest the specification describes

These definitions follow the specification's text (sections 3, 4.2 and 4.3), not the
C code: they are what `hashBlock` and the whole program are compared with. -/

namespace Spec

/-- Circular rotation of a 32-bit word to the left by `s` bits: the low `32 - s` bits
move up by `s`, the high `s` bits reappear at the bottom. -/
def rotl (v s : Nat) : Nat := v * 2 ^ s % 2 ^ 32 + v / 2 ^ (32 - s)

/-- The 32-bit complement. -/
def not32 (x : Nat) : Nat := 2 ^ 32 - 1 - x

/-- The nonlinear functions `f0 .. f4`, by index. -/
def f (j : Nat) (x y z : Nat) : Nat :=
  match j with
  | 0 => x ^^^ y ^^^ z
  | 1 => (x &&& y) ||| (not32 x &&& z)
  | 2 => (x ||| not32 y) ^^^ z
  | 3 => (x &&& z) ||| (y &&& not32 z)
  | _ => x ^^^ (y ||| not32 z)

/-- Left permutations, rounds 0 to 4. -/
def leftP : List (List Nat) :=
  [[0, 1, 2, 3, 4, 5, 6, 7, 8, 9, 10, 11, 12, 13, 14, 15],
   [7, 4, 13, 1, 10, 6, 15, 3, 12, 0, 9, 5, 2, 14, 11, 8],
   [3, 10, 14, 4, 9, 15, 8, 1, 2, 7, 0, 6, 13, 11, 5, 12],
   [1, 9, 11, 10, 0, 8, 12, 4, 13, 3, 7, 15, 14, 5, 6, 2],
   [4, 0, 5, 9, 7, 12, 2, 10, 14, 1, 3, 8, 11, 6, 15, 13]]

/-- Left shifts, rounds 0 to 4. -/
def leftSh : List (List Nat) :=
  [[11, 14, 15, 12, 5, 8, 7, 9, 11, 13, 14, 15, 6, 7, 9, 8],
   [7, 6, 8, 13, 11, 9, 7, 15, 7, 12, 15, 9, 11, 7, 13, 12],
   [11, 13, 6, 7, 14, 9, 13, 15, 14, 8, 13, 6, 5, 12, 7, 5],
   [11, 12, 14, 15, 14, 15, 9, 8, 9, 14, 5, 6, 8, 6, 5, 12],
   [9, 15, 5, 11, 6, 8, 13, 12, 5, 12, 13, 14, 11, 8, 5, 6]]

/-- Left round constants, rounds 0 to 4. -/
def leftK : List Nat := [0x00000000, 0x5A827999, 0x6ED9EBA1, 0x8F1BBCDC, 0xA953FD4E]

/-- Right permutations, rounds 0 to 4. -/
def rightP : List (List Nat) :=
  [[5, 14, 7, 0, 9, 2, 11, 4, 13, 6, 15, 8, 1, 10, 3, 12],
   [6, 11, 3, 7, 0, 13, 5, 10, 14, 15, 8, 12, 4, 9, 1, 2],
   [15, 5, 1, 3, 7, 14, 6, 9, 11, 8, 12, 2, 10, 0, 4, 13],
   [8, 6, 4, 1, 3, 11, 15, 0, 5, 12, 2, 13, 9, 7, 10, 14],
   [12, 15, 10, 4, 1, 5, 8, 7, 6, 2, 13, 14, 0, 3, 9, 11]]

/-- Right shifts, rounds 0 to 4. -/
def rightSh : List (List Nat) :=
  [[8, 9, 9, 11, 13, 15, 15, 5, 7, 7, 8, 11, 14, 14, 12, 6],
   [9, 13, 15, 7, 12, 8, 9, 11, 7, 7, 12, 7, 6, 15, 13, 11],
   [9, 7, 15, 11, 8, 6, 6, 14, 12, 13, 5, 14, 13, 13, 7, 5],
   [15, 5, 8, 11, 14, 14, 6, 14, 6, 9, 12, 9, 12, 5, 15, 8],
   [8, 5, 12, 9, 12, 5, 14, 6, 8, 13, 6, 5, 15, 13, 11, 11]]

/-- Right round constants, rounds 0 to 4. -/
def rightK : List Nat := [0x50A28BE6, 0x5C4DD124, 0x6D703EF3, 0x7A6D76E9, 0x00000000]

/-- The message word `X[ i ]` of a block: four bytes, least significant first. -/
def word (block : List Nat) (i : Nat) : Nat :=
  block.getD (4 * i) 0 + 256 * block.getD (4 * i + 1) 0 + 256 ^ 2 * block.getD (4 * i + 2) 0 +
    256 ^ 3 * block.getD (4 * i + 3) 0

/-- The sixteen message words `X[ 0 .. 15 ]` of a block. -/
def words (block : List Nat) : List Nat := (List.range 16).map (word block)

/-- One step: `T = rotl (A + f(B, C, D) + X + K, s)`, then
`(A, B, C, D, E) ← (E, T + E, B, rotl (C, 10), D)`; sums modulo `2 ^ 32`. -/
def step (fn : Nat → Nat → Nat → Nat) (x k s : Nat) (st : HashState) : HashState :=
  let t := rotl ((st.A + fn st.B st.C st.D + x + k) % 2 ^ 32) s
  { A := st.E, B := (t + st.E) % 2 ^ 32, C := st.B, D := rotl st.C 10, E := st.D }

/-- One round `j` of a line: 16 sequential steps with the round's permutation, shift
table, constant and nonlinear function. -/
def round (P Sh : List (List Nat)) (K : List Nat) (sel : Nat → Nat) (X : List Nat) (j : Nat)
    (st : HashState) : HashState :=
  (List.range 16).foldl
    (fun st i => step (f (sel j)) (X.getD ((P.getD j []).getD i 0) 0) (K.getD j 0)
      ((Sh.getD j []).getD i 0) st) st

/-- One line: the rounds 0 to 4 in order. -/
def line (P Sh : List (List Nat)) (K : List Nat) (sel : Nat → Nat) (X : List Nat)
    (st : HashState) : HashState :=
  (List.range 5).foldl (fun st j => round P Sh K sel X j st) st

/-- The left line: functions `f0, f1, f2, f3, f4`. -/
def left (X : List Nat) (st : HashState) : HashState := line leftP leftSh leftK (fun j => j) X st

/-- The right line: functions in reversed order `f4, f3, f2, f1, f0`. -/
def right (X : List Nat) (st : HashState) : HashState :=
  line rightP rightSh rightK (fun j => 4 - j) X st

/-- The compression function: both lines from the same state `S`, then the
recombination with the pre-block `S`. -/
def compress (S : HashState) (block : List Nat) : HashState :=
  let X := words block
  let L := left X S
  let R := right X S
  { A := (S.B + L.C + R.D) % 2 ^ 32
    B := (S.C + L.D + R.E) % 2 ^ 32
    C := (S.D + L.E + R.A) % 2 ^ 32
    D := (S.E + L.A + R.B) % 2 ^ 32
    E := (S.A + L.B + R.C) % 2 ^ 32 }

/-- The fixed initial value. -/
def iv : HashState :=
  { A := 0x67452301, B := 0xEFCDAB89, C := 0x98BADCFE, D := 0x10325476, E := 0xC3D2E1F0 }

/-- Merkle-Damgard padding: the byte `0x80`, then zero bytes until the length is 56
modulo 64, then the bit length `8 * L` as a 64-bit little-endian integer. -/
def pad (msg : List Nat) : List Nat :=
  msg ++ [0x80] ++ List.replicate ((119 - msg.length % 64) % 64) 0 ++
    littleEndian 8 (8 * msg.length % 2 ^ 64)

/-- The consecutive 64-byte blocks of a padded message. -/
def blocks (padded : List Nat) : List (List Nat) :=
  (List.range (padded.length / 64)).map (fun i => (padded.drop (64 * i)).take 64)

/-- The RIPEMD-160 chaining state after the last block of the padded message. -/
def finalState (msg : List Nat) : HashState := (blocks (pad msg)).foldl compress iv

/-- The RIPEMD-160 digest of a message, as 40 hexadecimal characters. -/
def ripemd160 (msg : List Nat) : List Char := digestHex (finalState msg)

end Spec

/-- A chaining state whose five fields are in the range of `longword`. -/
def HashState.valid (s : HashState) : Prop :=
  s.A < 2 ^ 32 ∧ s.B < 2 ^ 32 ∧ s.C < 2 ^ 32 ∧ s.D < 2 ^ 32 ∧ s.E < 2 ^ 32

/-! ## Concrete inputs -/

/-- The starting state of the first `hashBlock` test of `testdriver.c`. -/
def testState : HashState :=
  { A := 0x61975820, B := 0x20DF29DA, C := 0x1BA7D460, D := 0x304626E9, E := 0x0372D2E9 }

/-- The data block of the first `hashBlock` test of `testdriver.c`. -/
def testBlock : List Nat :=
  [0x23, 0x40, 0x32, 0xF9, 0xF4, 0x0B, 0xF3, 0x71, 0x60, 0x4E, 0x65, 0xDB, 0x31, 0x16, 0x89, 0x1E,
   0x4C, 0x33, 0xC4, 0x8E, 0x6D, 0xC4, 0x6D, 0x57, 0xA9, 0x9B, 0xD5, 0x59, 0x08, 0xC9, 0x4A, 0xE3,
   0xFD, 0x35, 0x1D, 0x66, 0xDB, 0x9C, 0x52, 0x51, 0xF1, 0x1C, 0x04, 0xEC, 0x1D, 0x6A, 0x86, 0x95,
   0xB6, 0x05, 0x8C, 0xAB, 0x88, 0x6B, 0x57, 0x4F, 0x8F, 0x67, 0x90, 0x56, 0xC8, 0x81, 0x95, 0x1B]

/-- A message of `2 ^ 20 + 60` zero bytes. -/
def collisionA : List Nat := List.replicate (2 ^ 20 + 60) 0

/-- The message `collisionA` followed by the three bytes `0x80, 0xE0, 0x01`. -/
def collisionB : List Nat := collisionA ++ [0x80, 0xE0, 0x01]

/-! ## Further notions and inputs -/

/-- The first `n` of the successive `hashIteration` calls of a round: call `i`
(`i = 0, 1, ...`, in increasing order) gets the datum `datum i` and the shift amount
`shift i`, every call the same `noise` and `f`. -/
def hashIterations (datum shift : Nat → Nat) (noise : Nat) (f : Nat → Nat → Nat → Nat) :
    Nat → HashState → HashState
  | 0, state => state
  | n + 1, state =>
    hashIteration (hashIterations datum shift noise f n state) (datum n) (shift n) noise f

/-- The ASCII message `testing 1, 2, 3...` of the first `padBuffer` test of
`testdriver.c`. -/
def testingMessage : List Nat := "testing 1, 2, 3...".toList.map Char.toNat

/-- The starting state of the second `hashRound` test of `testdriver.c`. -/
def roundTestState : HashState :=
  { A := 0x1AA0D28C, B := 0x81F943FD, C := 0x8926C3E7, D := 0xF545EAAC, E := 0x6BF74A2B }

/-- The block of the second `hashRound` test of `testdriver.c`. -/
def roundTestData : List Nat :=
  [0x8D188A93, 0xD26DFD20, 0xBEC5D377, 0x0FD7ABB4, 0x5070D31A, 0x4172969C, 0x180C1ED0, 0x17653891,
   0x7434CB9D, 0xBF4C4744, 0x8B338358, 0x514D9B93, 0x0FCC16BB, 0x34D90C53, 0x184535D6, 0x7E0A6C74]

/-- The `perm` table of the second `hashRound` test of `testdriver.c`. -/
def roundTestPerm : List Nat := [4, 10, 11, 15, 14, 5, 13, 1, 6, 9, 3, 7, 8, 2, 0, 12]

/-- The `shift` table of the second `hashRound` test of `testdriver.c`. -/
def roundTestShift : List Nat := [9, 14, 15, 7, 5, 15, 13, 10, 5, 9, 11, 5, 15, 8, 15, 15]

/-- A buffer holding the three bytes `abc`, as `readFile` builds it. -/
def abcBuffer : ByteBuffer := { data := [97, 98, 99], len := 3, cap := 5 }

/-- A buffer holding the same three bytes `abc` with a larger capacity and with two
stale cells beyond its length. -/
def abcBufferLarge : ByteBuffer := { data := [97, 98, 99, 7, 7], len := 3, cap := 80 }

/-! ## The tables of `hashBlock` as lists, and `hashBlock` over a given rotation -/

/-- The ten message-word order tables of `hashBlock`. -/
def permTables : List (List Nat) :=
  [leftPerm0, leftPerm1, leftPerm2, leftPerm3, leftPerm4,
   rightPerm0, rightPerm1, rightPerm2, rightPerm3, rightPerm4]

/-- The ten shift tables of `hashBlock`. -/
def shiftTables : List (List Nat) :=
  [leftShift0, leftShift1, leftShift2, leftShift3, leftShift4,
   rightShift0, rightShift1, rightShift2, rightShift3, rightShift4]

/-- The function `hashIteration` with the rotation `rot` in place of `rotateLeft`. -/
def hashIterationWith (rot : Nat → Nat → Nat) (state : HashState) (datum : Nat) (shift : Nat)
    (noise : Nat) (f : Nat → Nat → Nat → Nat) : HashState :=
  let a := (state.A + ((f state.B state.C state.D + datum) % WORD + noise) % WORD) % WORD
  let a := rot a shift
  let c := rot state.C NUM_C_ROTATIONS
  let a := (a + state.E) % WORD
  { A := state.E, B := a, C := state.B, D := c, E := state.D }

/-- The function `hashRound` with the rotation `rot` in place of `rotateLeft`. -/
def hashRoundWith (rot : Nat → Nat → Nat) (state : HashState) (data : List Nat)
    (perm : List Nat) (shift : List Nat) (noise : Nat) (f : Nat → Nat → Nat → Nat) : HashState :=
  (List.range RIPE_ITERATIONS).foldl
    (fun st i => hashIterationWith rot st (data.getD (perm.getD i 0) 0) (shift.getD i 0) noise f)
    state

/-- The left line of `hashBlock` with the rotation `rot` in place of `rotateLeft`. -/
def leftSideRoundWith (rot : Nat → Nat → Nat) (state : HashState) (data : List Nat) :
    HashState :=
  let s := hashRoundWith rot state data leftPerm0 leftShift0 leftNoise0 bitwiseF0
  let s := hashRoundWith rot s data leftPerm1 leftShift1 leftNoise1 bitwiseF1
  let s := hashRoundWith rot s data leftPerm2 leftShift2 leftNoise2 bitwiseF2
  let s := hashRoundWith rot s data leftPerm3 leftShift3 leftNoise3 bitwiseF3
  hashRoundWith rot s data leftPerm4 leftShift4 leftNoise4 bitwiseF4

/-- The right line of `hashBlock` with the rotation `rot` in place of `rotateLeft`. -/
def rightSideRoundWith (rot : Nat → Nat → Nat) (state : HashState) (data : List Nat) :
    HashState :=
  let s := hashRoundWith rot state data rightPerm0 rightShift0 rightNoise0 bitwiseF4
  let s := hashRoundWith rot s data rightPerm1 rightShift1 rightNoise1 bitwiseF3
  let s := hashRoundWith rot s data rightPerm2 rightShift2 rightNoise2 bitwiseF2
  let s := hashRoundWith rot s data rightPerm3 rightShift3 rightNoise3 bitwiseF1
  hashRoundWith rot s data rightPerm4 rightShift4 rightNoise4 bitwiseF0

/-- The function `hashBlock` with the rotation `rot` in place of `rotateLeft`. -/
def hashBlockWith (rot : Nat → Nat → Nat) (state : HashState) (block : List Nat) : HashState :=
  let data := longwordArray block
  let l := leftSideRoundWith rot state data
  let r := rightSideRoundWith rot state data
  { A := ((state.B + l.C) % WORD + r.D) % WORD
    B := ((state.C + l.D) % WORD + r.E) % WORD
    C := ((state.D + l.E) % WORD + r.A) % WORD
    D := ((state.E + l.A) % WORD + r.B) % WORD
    E := ((state.A + l.B) % WORD + r.C) % WORD }

/-! ## The bound of the heap array -/

/-- The function `addByte` with the bound of the heap array enforced.  After the growth
test the array has `cap` cells (the size passed to `realloc`), and the store
`buffer->data[ buffer->len ] = b` is defined only for `len < cap`.  When the doubled
capacity has wrapped around as an `unsigned int`, or is zero, the store lies outside
the array and the call has no defined result (`none`). -/
def addByteChecked (buffer : ByteBuffer) (b : Nat) : Option ByteBuffer :=
  let cap := if buffer.len ≥ buffer.cap then (buffer.cap * 2) % WORD else buffer.cap
  if buffer.len < cap then
    some { data := store buffer.data buffer.len (b % 256)
           len := (buffer.len + 1) % WORD
           cap := cap }
  else none

/-- The loop of `readFile` over the bytes that `fgetc` returns for a file that `fopen`
has opened, each appended to a fresh buffer, with the bound of the heap array
enforced. -/
def readFileChecked (bytes : List Nat) : Option ByteBuffer :=
  bytes.foldlM addByteChecked createBuffer

/-- A loop `for ( ...; n iterations; ... ) addByte( buffer, 0 );` with the bound of the
heap array enforced. -/
def addZerosChecked : Nat → ByteBuffer → Option ByteBuffer
  | 0, buffer => some buffer
  | n + 1, buffer => (addByteChecked buffer 0).bind (addZerosChecked n)

/-- The function `padBuffer` with the bound of the heap array enforced in each call of
`addByte`. -/
def padBufferChecked (buffer : ByteBuffer) : Option ByteBuffer :=
  let numBits := (buffer.len * BBITS) % WORD
  let length := toInt buffer.len
  (addByteChecked buffer LAST_BYTE_IN_LAST_BLOCK).bind fun buffer =>
  (addZerosChecked (zeroCount length) buffer).bind fun buffer =>
  (addByteChecked buffer ((numBits &&& 0x000000FF) >>> (BBITS * 0))).bind fun buffer =>
  (addByteChecked buffer ((numBits &&& 0x0000FF00) >>> (BBITS * 1))).bind fun buffer =>
  (addByteChecked buffer ((numBits &&& 0x00FF0000) >>> (BBITS * 2))).bind fun buffer =>
  (addByteChecked buffer ((numBits &&& 0xFF000000) >>> (BBITS * 3))).bind fun buffer =>
  addZerosChecked 4 buffer

/-- The part of `main` after a successful `readFile`, with the bound of the heap array
enforced in `padBuffer` and with the index `i * BLOCK_BYTES + j` of the block loop kept
within the range of `int` (it reaches `numBlocks * BLOCK_BYTES - 1`). -/
def hashBufferChecked (buffer : ByteBuffer) : Option (List Char) :=
  match padBufferChecked buffer with
  | none => none
  | some buffer =>
    let hash := initState { A := 0, B := 0, C := 0, D := 0, E := 0 }
    let numBlocks := buffer.len / BLOCK_BYTES
    if numBlocks * BLOCK_BYTES ≤ 2 ^ 31 then
      some (printHash (hashBlocks hash buffer.data numBlocks))
    else none

/-- A file of `n` zero bytes. -/
def zeroFile (n : Nat) : List Nat := List.replicate n 0

/-! ## Theorems -/

theorem store_length_ge (data : List Nat) (i x : Nat) (h : i ≤ data.length) :
    i + 1 ≤ (store data i x).length := by
  unfold store
  split
  · simp; omega
  · simp; omega

theorem store_take (data : List Nat) (i x : Nat) (h : i ≤ data.length) :
    (store data i x).take (i + 1) = data.take i ++ [x] := by
  unfold store
  split
  · rename_i hlt
    apply List.ext_getElem?
    intro j
    simp only [List.getElem?_take, List.getElem?_set, List.getElem?_append]
    by_cases hj : j < i
    · have : i ≠ j := by omega
      simp [hj, this, List.getElem?_append, List.length_take, Nat.min_eq_left h]
      omega
    · by_cases hji : j = i
      · subst hji
        simp [hlt, List.getElem?_append, List.length_take, Nat.min_eq_left h]
      · have h1 : ¬ j < i + 1 := by omega
        simp [h1, hj, List.getElem?_append, List.length_take, Nat.min_eq_left h]
        omega
  · have : i = data.length := by omega
    subst this
    simp

theorem store_getElem?_self (data : List Nat) (i x : Nat) (h : i ≤ data.length) :
    (store data i x)[i]? = some x := by
  unfold store
  split
  · rename_i hlt
    simp [List.getElem?_set, hlt]
  · have : i = data.length := by omega
    subst this
    simp

theorem store_getElem?_ne (data : List Nat) (i j x : Nat) (h : i ≤ data.length) (hne : j ≠ i) :
    (store data i x)[j]? = data[j]? := by
  unfold store
  split
  · have : i ≠ j := fun e => hne e.symm
    simp [List.getElem?_set, this]
  · have hi : i = data.length := by omega
    subst hi
    by_cases hj : j < data.length
    · simp [List.getElem?_append, hj]
    · have h1 : data.length < j := by omega
      rw [List.getElem?_eq_none (by simp; omega), List.getElem?_eq_none (by omega)]

theorem addByte_len (b : ByteBuffer) (x : Nat) : (addByte b x).len = (b.len + 1) % WORD := rfl

theorem addByte_data (b : ByteBuffer) (x : Nat) :
    (addByte b x).data = store b.data b.len (x % 256) := rfl

theorem foldl_addByte_len (xs : List Nat) (b : ByteBuffer) (h : b.len < WORD) :
    (xs.foldl addByte b).len = (b.len + xs.length) % WORD := by
  induction xs generalizing b with
  | nil => simp [Nat.mod_eq_of_lt h]
  | cons x xs ih =>
    simp only [List.foldl_cons, List.length_cons]
    rw [ih (addByte b x) (by rw [addByte_len]; exact Nat.mod_lt _ (by decide)), addByte_len]
    rw [Nat.mod_add_mod]
    congr 1
    omega

theorem foldl_addByte_wf (xs : List Nat) (b : ByteBuffer) (h : b.len ≤ b.data.length) :
    (xs.foldl addByte b).len ≤ (xs.foldl addByte b).data.length := by
  induction xs generalizing b with
  | nil => simpa using h
  | cons x xs ih =>
    simp only [List.foldl_cons]
    apply ih
    rw [addByte_len, addByte_data]
    have := store_length_ge b.data b.len (x % 256) h
    have := Nat.mod_le (b.len + 1) WORD
    omega

theorem foldl_addByte_bytes (xs : List Nat) (b : ByteBuffer) (h : b.len ≤ b.data.length)
    (hno : b.len + xs.length < WORD) :
    (xs.foldl addByte b).bytes = b.bytes ++ xs.map (· % 256) := by
  induction xs generalizing b with
  | nil => simp
  | cons x xs ih =>
    simp only [List.foldl_cons, List.length_cons] at *
    have hlen : (addByte b x).len = b.len + 1 := by
      rw [addByte_len]; exact Nat.mod_eq_of_lt (by omega)
    have hwf : (addByte b x).len ≤ (addByte b x).data.length := by
      rw [hlen, addByte_data]; exact store_length_ge _ _ _ h
    rw [ih (addByte b x) hwf (by omega)]
    have : (addByte b x).bytes = b.bytes ++ [x % 256] := by
      unfold ByteBuffer.bytes
      rw [hlen, addByte_data, store_take _ _ _ h]
    rw [this]
    simp

theorem foldl_addByte_getElem? (xs : List Nat) (b : ByteBuffer) (j : Nat)
    (h : b.len ≤ b.data.length) (hb : b.len < WORD)
    (hj : ∀ k, k < xs.length → (b.len + k) % WORD ≠ j) :
    (xs.foldl addByte b).data[j]? = b.data[j]? := by
  induction xs generalizing b with
  | nil => simp
  | cons x xs ih =>
    simp only [List.foldl_cons, List.length_cons] at *
    have hwf : (addByte b x).len ≤ (addByte b x).data.length := by
      rw [addByte_len, addByte_data]
      have := store_length_ge b.data b.len (x % 256) h
      have := Nat.mod_le (b.len + 1) WORD
      omega
    rw [ih (addByte b x) hwf (by rw [addByte_len]; exact Nat.mod_lt _ (by decide))]
    · rw [addByte_data]
      apply store_getElem?_ne _ _ _ _ h
      have := hj 0 (by omega)
      rw [Nat.add_zero, Nat.mod_eq_of_lt hb] at this
      exact fun e => this e.symm
    · intro k hk
      have := hj (k + 1) (by omega)
      rw [addByte_len, Nat.mod_add_mod]
      rwa [show b.len + 1 + k = b.len + (k + 1) by omega]

theorem addZeros_eq_foldl (n : Nat) (b : ByteBuffer) :
    addZeros n b = (List.replicate n 0).foldl addByte b := by
  induction n generalizing b with
  | zero => rfl
  | succ n ih => simp [addZeros, ih, List.replicate_succ]

theorem padBuffer_eq_foldl (b : ByteBuffer) :
    padBuffer b = (padding b.len).foldl addByte b := by
  simp only [padBuffer, padding, addZeros_eq_foldl, List.foldl_append, List.foldl_cons,
    List.foldl_nil]

theorem tmod_neg_natCast (n : Nat) : Int.tmod (-(n : Int)) 64 = -((n % 64 : Nat) : Int) := by
  cases n with
  | zero => simp
  | succ k => rfl

theorem zeroCount_small (L : Nat) (h : L < 2 ^ 31) : zeroCount (toInt L) = 55 - L % 64 := by
  have hW : L % WORD = L := Nat.mod_eq_of_lt (by unfold WORD; omega)
  unfold zeroCount toInt
  rw [hW, if_pos h]
  have : Int.tmod (L : Int) ((BLOCK_BYTES : Nat) : Int) = ((L % 64 : Nat) : Int) := by
    rw [Int.ofNat_tmod]; rfl
  rw [this]
  simp only [BLOCK_BYTES, BBITS, Nat.cast_ofNat]
  omega

theorem zeroCount_big (L : Nat) (h : 2 ^ 31 ≤ L) (h2 : L < WORD) :
    zeroCount (toInt L) = 55 + (WORD - L) % 64 := by
  have hW : L % WORD = L := Nat.mod_eq_of_lt h2
  unfold zeroCount toInt
  rw [hW, if_neg (by omega)]
  have e : ((L : Nat) : Int) - ((WORD : Nat) : Int) = -(((WORD - L : Nat)) : Int) := by
    omega
  rw [e]
  have := tmod_neg_natCast (WORD - L)
  simp only [BLOCK_BYTES, BBITS, Nat.cast_ofNat] at *
  rw [this]
  omega

theorem zeroCount_le (L : Nat) (h : L < WORD) : zeroCount (toInt L) ≤ 118 := by
  by_cases hs : L < 2 ^ 31
  · rw [zeroCount_small L hs]; omega
  · rw [zeroCount_big L (by omega) h]; omega

theorem padding_length (L : Nat) : (padding L).length = 9 + zeroCount (toInt L) := by
  simp [padding]; omega

theorem padBuffer_len (b : ByteBuffer) (h : b.len < WORD) :
    (padBuffer b).len = (b.len + (9 + zeroCount (toInt b.len))) % WORD := by
  rw [padBuffer_eq_foldl, foldl_addByte_len _ _ h, padding_length]

theorem and_shiftRight (a m k : Nat) : (a &&& m) >>> k = (a >>> k) &&& (m >>> k) := by
  apply Nat.eq_of_testBit_eq
  intro i
  simp [Nat.testBit_shiftRight, Nat.testBit_and]

theorem byte0 (n : Nat) : (n &&& 0x000000FF) >>> (BBITS * 0) = n % 256 := by
  have := Nat.and_pow_two_sub_one_eq_mod n 8
  simpa [BBITS] using this

theorem byteAt (n m k : Nat) (hm : m >>> k = 2 ^ 8 - 1) : (n &&& m) >>> k = n / 2 ^ k % 256 := by
  rw [and_shiftRight, hm, Nat.and_pow_two_sub_one_eq_mod, Nat.shiftRight_eq_div_pow]

theorem byte1 (n : Nat) : (n &&& 0x0000FF00) >>> (BBITS * 1) = n / 2 ^ 8 % 256 :=
  byteAt n _ _ (by decide)

theorem byte2 (n : Nat) : (n &&& 0x00FF0000) >>> (BBITS * 2) = n / 2 ^ 16 % 256 :=
  byteAt n _ _ (by decide)

theorem byte3 (n : Nat) : (n &&& 0xFF000000) >>> (BBITS * 3) = n / 2 ^ 24 % 256 :=
  byteAt n _ _ (by decide)

theorem padding_eq (L : Nat) :
    padding L = [0x80] ++ List.replicate (zeroCount (toInt L)) 0 ++
      [(L * 8 % WORD) % 256, (L * 8 % WORD) / 2 ^ 8 % 256, (L * 8 % WORD) / 2 ^ 16 % 256,
       (L * 8 % WORD) / 2 ^ 24 % 256] ++ [0, 0, 0, 0] := by
  unfold padding
  simp only [byte0, byte1, byte2, byte3]
  rfl

theorem padding_map_mod (L : Nat) : (padding L).map (· % 256) = padding L := by
  rw [padding_eq]
  simp

theorem padBuffer_bytes (b : ByteBuffer) (h : b.len ≤ b.data.length)
    (hno : b.len + (9 + zeroCount (toInt b.len)) < WORD) :
    (padBuffer b).bytes = b.bytes ++ padding b.len := by
  rw [padBuffer_eq_foldl, foldl_addByte_bytes _ _ h (by rw [padding_length]; exact hno),
    padding_map_mod]

theorem padBuffer_wf (b : ByteBuffer) (h : b.len ≤ b.data.length) :
    (padBuffer b).len ≤ (padBuffer b).data.length := by
  rw [padBuffer_eq_foldl]; exact foldl_addByte_wf _ _ h

theorem padBuffer_noWrap (L : Nat) (h : L + 128 ≤ WORD) :
    L + (9 + zeroCount (toInt L)) < WORD := by
  by_cases hs : L < 2 ^ 31
  · rw [zeroCount_small L hs]; unfold WORD at *; omega
  · rw [zeroCount_big L (by omega) (by omega)]; unfold WORD at *; omega

theorem bytes_length (b : ByteBuffer) (h : b.len ≤ b.data.length) : b.bytes.length = b.len := by
  simp [ByteBuffer.bytes, h]

theorem bytes_getElem? (b : ByteBuffer) (i : Nat) (h : i < b.len) : b.data[i]? = b.bytes[i]? := by
  unfold ByteBuffer.bytes
  rw [List.getElem?_take_of_lt h]

/-- C2 (code defect): for the 56-byte message `message56` the buffer length after
`padBuffer` is 65, which is not a multiple of 64 and not the smallest multiple of
64 that is at least `56 + 9` (that multiple is 128). -/
theorem padBuffer_len_message56 :
    message56.length = 56 ∧
    (padBuffer (message56.foldl addByte createBuffer)).len = 65 ∧
    65 % BLOCK_BYTES ≠ 0 ∧
    (padBuffer (message56.foldl addByte createBuffer)).len ≠ 128 := by
  decide

theorem padBuffer_lastBytes (b : ByteBuffer) (hwf : b.len ≤ b.data.length)
    (hL : b.len + 128 ≤ 2 ^ 32) :
    (padBuffer b).lastBytes 8 = littleEndian 4 (8 * b.len % 2 ^ 32) ++ [0, 0, 0, 0] ∧
    (b.len < 2 ^ 29 → (padBuffer b).lastBytes 8 = littleEndian 8 (8 * b.len)) := by
  have hno := padBuffer_noWrap b.len hL
  have hlen : (padBuffer b).len = b.len + (9 + zeroCount (toInt b.len)) := by
    rw [padBuffer_len b (by unfold WORD; omega), Nat.mod_eq_of_lt hno]
  have hfield : (padBuffer b).lastBytes 8 =
      littleEndian 4 (8 * b.len % 2 ^ 32) ++ [0, 0, 0, 0] := by
    unfold ByteBuffer.lastBytes
    rw [padBuffer_bytes b hwf hno, hlen, padding_eq]
    have e : b.bytes ++ ([0x80] ++ List.replicate (zeroCount (toInt b.len)) 0 ++
        [(b.len * 8 % WORD) % 256, (b.len * 8 % WORD) / 2 ^ 8 % 256,
          (b.len * 8 % WORD) / 2 ^ 16 % 256, (b.len * 8 % WORD) / 2 ^ 24 % 256] ++ [0, 0, 0, 0])
        = (b.bytes ++ [0x80] ++ List.replicate (zeroCount (toInt b.len)) 0) ++
        ([(b.len * 8 % WORD) % 256, (b.len * 8 % WORD) / 2 ^ 8 % 256,
          (b.len * 8 % WORD) / 2 ^ 16 % 256, (b.len * 8 % WORD) / 2 ^ 24 % 256] ++
          [0, 0, 0, 0]) := by
      simp
    rw [e, List.drop_left' (by simp [bytes_length b hwf]; omega)]
    simp [littleEndian, List.range_succ, WORD, Nat.mul_comm]
  refine ⟨hfield, fun h29 => ?_⟩
  rw [hfield]
  have hm : 8 * b.len % 2 ^ 32 = 8 * b.len := Nat.mod_eq_of_lt (by omega)
  rw [hm]
  simp only [littleEndian, List.range_succ, List.range_zero, List.nil_append, List.map_append,
    List.map_cons, List.map_nil, List.cons_append, List.cons.injEq, and_true, true_and]
  refine ⟨?_, ?_, ?_, ?_⟩ <;> omega

theorem padBuffer_marker (b : ByteBuffer) (hwf : b.len ≤ b.data.length) (hL : b.len < WORD) :
    (padBuffer b).data[b.len]? = some 0x80 := by
  have hz := zeroCount_le b.len hL
  rw [padBuffer_eq_foldl, padding_eq]
  simp only [List.append_assoc, List.singleton_append, List.cons_append, List.foldl_cons]
  have hwf1 : (addByte b 0x80).len ≤ (addByte b 0x80).data.length := by
    rw [addByte_len, addByte_data]
    have := store_length_ge b.data b.len (0x80 % 256) hwf
    have := Nat.mod_le (b.len + 1) WORD
    omega
  rw [foldl_addByte_getElem? _ _ _ hwf1 (by rw [addByte_len]; exact Nat.mod_lt _ (by decide))]
  · rw [addByte_data, store_getElem?_self _ _ _ hwf]
  · intro k hk
    simp only [List.length_append, List.length_replicate, List.length_cons, List.length_nil]
      at hk
    rw [addByte_len]
    unfold WORD at *
    omega

theorem padBuffer_zeros (b : ByteBuffer) (hwf : b.len ≤ b.data.length)
    (hL : b.len < 2 ^ 32) :
    (padBuffer b).data[b.len]? = some 0x80 ∧
    ∀ i, b.len + 1 ≤ i → i + 9 ≤ (padBuffer b).len → (padBuffer b).data[i]? = some 0 := by
  refine ⟨padBuffer_marker b hwf hL, fun i hi1 hi2 => ?_⟩
  have hz := zeroCount_le b.len hL
  have hlen := padBuffer_len b hL
  by_cases hno : b.len + (9 + zeroCount (toInt b.len)) < WORD
  · rw [Nat.mod_eq_of_lt hno] at hlen
    rw [bytes_getElem? _ _ (by omega), padBuffer_bytes b hwf hno, padding_eq]
    simp only [List.append_assoc]
    rw [List.getElem?_append_right (by rw [bytes_length b hwf]; omega), bytes_length b hwf,
      List.getElem?_append_right (by simp; omega),
      List.getElem?_append_left (by simp; omega)]
    simp only [List.length_cons, List.length_nil]
    exact List.getElem?_replicate_of_lt (by omega)
  · exfalso
    unfold WORD at *
    omega

theorem padBuffer_prefix (b : ByteBuffer) (hwf : b.len ≤ b.data.length)
    (hL : b.len + 128 ≤ 2 ^ 32) :
    (padBuffer b).data.take b.len = b.data.take b.len ∧ b.len < (padBuffer b).len := by
  have hno := padBuffer_noWrap b.len hL
  have hlen : (padBuffer b).len = b.len + (9 + zeroCount (toInt b.len)) := by
    rw [padBuffer_len b (by unfold WORD; omega), Nat.mod_eq_of_lt hno]
  refine ⟨?_, by omega⟩
  have h1 := padBuffer_bytes b hwf hno
  have h2 : ((padBuffer b).bytes).take b.len = (padBuffer b).data.take b.len := by
    unfold ByteBuffer.bytes
    rw [List.take_take, Nat.min_eq_left (by omega)]
  rw [← h2, h1, List.take_left' (bytes_length b hwf)]
  rfl

theorem printf02x_byte : ∀ v, v < 256 → printf02x v = hexByte v := by decide

theorem hexDigit_mem : ∀ d, d < 16 → hexDigit d ∈ hexDigits := by decide

theorem hexByte_mem (b : Nat) (h : b < 256) : ∀ c ∈ hexByte b, c ∈ hexDigits := by
  intro c hc
  simp only [hexByte, List.mem_cons, List.mem_singleton, List.not_mem_nil, or_false] at hc
  rcases hc with rfl | rfl
  · exact hexDigit_mem _ (by omega)
  · exact hexDigit_mem _ (by omega)

theorem PRINT_STATE_REVERSED_eq (w : Nat) : PRINT_STATE_REVERSED w = wordHex w := by
  unfold PRINT_STATE_REVERSED wordHex
  rw [byte0, byte1, byte2, byte3]
  rw [printf02x_byte _ (Nat.mod_lt _ (by decide)), printf02x_byte _ (Nat.mod_lt _ (by decide)),
    printf02x_byte _ (Nat.mod_lt _ (by decide)), printf02x_byte _ (Nat.mod_lt _ (by decide))]
  rfl

theorem wordHex_length (w : Nat) : (wordHex w).length = 8 := by
  simp [wordHex, hexByte]

theorem wordHex_mem (w : Nat) : ∀ c ∈ wordHex w, c ∈ hexDigits := by
  intro c hc
  simp only [wordHex, List.mem_append] at hc
  rcases hc with ((hc | hc) | hc) | hc
  all_goals exact hexByte_mem _ (Nat.mod_lt _ (by decide)) c hc

/-- C9: for every chaining state, the text `printHash` produces is the digest text
followed by a newline, and the digest text is exactly 40 characters, each one of
`0`-`9` or `a`-`f`: the words `A`, `B`, `C`, `D`, `E` in that order, each word as its
4 bytes least significant byte first, each byte as two zero-padded hex digits. -/
theorem printHash_format (state : HashState) :
    printHash state = digestHex state ++ ['\n'] ∧
    (digestHex state).length = 40 ∧
    (∀ c ∈ digestHex state, c ∈ hexDigits) := by
  refine ⟨?_, ?_, ?_⟩
  · simp only [printHash, PRINT_STATE_REVERSED_eq, digestHex]
  · simp [digestHex, wordHex_length]
  · intro c hc
    simp only [digestHex, List.mem_append] at hc
    rcases hc with (((hc | hc) | hc) | hc) | hc
    all_goals exact wordHex_mem _ c hc

/-- C3: for the empty message, `padBuffer` on the empty buffer gives one block, and the
program prints exactly the 40 characters `9c1185a5c5e9fc54612808977ee8f548b2258d31`
(then a newline), the hex rendering of the state after one `hashBlock` call from the
`initState` value. -/
theorem digest_empty :
    (blocksFed (padBuffer createBuffer)).length = 1 ∧
    emptyDigest.length = 40 ∧
    digestHex (hashBlock (initState { A := 0, B := 0, C := 0, D := 0, E := 0 })
      (blockAt (padBuffer createBuffer).data 0)) = emptyDigest.toList ∧
    digest [] = emptyDigest.toList ++ ['\n'] ∧
    main 2 (some []) = { status := EXIT_SUCCESS, stdout := emptyDigest.toList ++ ['\n'] } := by
  decide

theorem addByte_growth_step (b : ByteBuffer) (x : Nat) (k : Nat) (hk : k ≤ 29)
    (hcap : b.cap = 5 * 2 ^ k) (hle : b.len ≤ b.cap) (hroom : b.len + 1 ≤ 5 * 2 ^ 29) :
    (addByte b x).len = b.len + 1 ∧ (addByte b x).len ≤ (addByte b x).cap ∧
    ∃ k', k' ≤ 29 ∧ (addByte b x).cap = 5 * 2 ^ k' := by
  have hlen : (addByte b x).len = b.len + 1 := by
    rw [addByte_len]; exact Nat.mod_eq_of_lt (by unfold WORD; omega)
  by_cases hfull : b.len ≥ b.cap
  · have hk' : k + 1 ≤ 29 := by
      by_contra hc
      have : k = 29 := by omega
      subst this
      omega
    have hpow : 5 * 2 ^ (k + 1) ≤ 5 * 2 ^ 29 :=
      Nat.mul_le_mul_left 5 (Nat.pow_le_pow_right (by decide) hk')
    have hcap' : (addByte b x).cap = 5 * 2 ^ (k + 1) := by
      show (if b.len ≥ b.cap then (b.cap * 2) % WORD else b.cap) = _
      rw [if_pos hfull, hcap, Nat.pow_succ, ← Nat.mul_assoc]
      apply Nat.mod_eq_of_lt
      rw [Nat.pow_succ, ← Nat.mul_assoc] at hpow
      unfold WORD
      omega
    refine ⟨hlen, ?_, k + 1, hk', hcap'⟩
    have hpos : 0 < 2 ^ k := Nat.two_pow_pos k
    rw [hlen, hcap', Nat.pow_succ, ← Nat.mul_assoc]
    omega
  · have hcap' : (addByte b x).cap = b.cap := by
      show (if b.len ≥ b.cap then (b.cap * 2) % WORD else b.cap) = _
      rw [if_neg hfull]
    refine ⟨hlen, by rw [hlen, hcap']; omega, k, hk, by rw [hcap', hcap]⟩

theorem foldl_addByte_growth (bs : List Nat) (b : ByteBuffer) (k : Nat) (hk : k ≤ 29)
    (hcap : b.cap = 5 * 2 ^ k) (hle : b.len ≤ b.cap)
    (hroom : b.len + bs.length ≤ 5 * 2 ^ 29) :
    (bs.foldl addByte b).len = b.len + bs.length ∧
    (bs.foldl addByte b).len ≤ (bs.foldl addByte b).cap := by
  induction bs generalizing b k with
  | nil => exact ⟨rfl, hle⟩
  | cons x xs ih =>
    simp only [List.foldl_cons, List.length_cons] at *
    obtain ⟨h1, h2, k', hk', h3⟩ := addByte_growth_step b x k hk hcap hle (by omega)
    obtain ⟨h4, h5⟩ := ih (addByte b x) k' hk' h3 h2 (by omega)
    exact ⟨by omega, h5⟩

/-- C10: the buffer `createBuffer` returns has `len = 0` and `cap = 5`, and after any
`n ≤ 5 * 2 ^ 29` calls of `addByte` on it (up to there the capacity does not overflow
32 bits) the buffer has `len = n` and `len ≤ cap`. -/
theorem createBuffer_addByte_len_le_cap (bs : List Nat) (h : bs.length ≤ 5 * 2 ^ 29) :
    createBuffer.len = 0 ∧ createBuffer.cap = 5 ∧
    (bs.foldl addByte createBuffer).len = bs.length ∧
    (bs.foldl addByte createBuffer).len ≤ (bs.foldl addByte createBuffer).cap := by
  obtain ⟨h1, h2⟩ := foldl_addByte_growth bs createBuffer 0 (by decide) rfl (by decide)
    (by simpa [createBuffer] using h)
  refine ⟨rfl, rfl, ?_, h2⟩
  simpa [createBuffer] using h1

/-- Witness for `createBuffer_addByte_len_le_cap`: six calls of `addByte`. -/
theorem createBuffer_addByte_len_le_cap_witness :
    createBuffer.len = 0 ∧ createBuffer.cap = 5 ∧
    ([118, 119, 120, 121, 122, 33].foldl addByte createBuffer).len
      = [118, 119, 120, 121, 122, 33].length ∧
    ([118, 119, 120, 121, 122, 33].foldl addByte createBuffer).len
      ≤ ([118, 119, 120, 121, 122, 33].foldl addByte createBuffer).cap :=
  createBuffer_addByte_len_le_cap [118, 119, 120, 121, 122, 33] (by decide)

theorem rotateMask_shiftRight (s : Nat) (h1 : 1 ≤ s) (h2 : s ≤ 15) :
    rotateMask s >>> (4 * BBITS - s) = 2 ^ s - 1 := by
  interval_cases s <;> rfl

theorem rotateLeft_eq_rotl (v s : Nat) (hv : v < 2 ^ 32) (h1 : 1 ≤ s) (h2 : s ≤ 15) :
    rotateLeft v s = Spec.rotl v s := by
  have hsplit : (2 : Nat) ^ 32 = 2 ^ s * 2 ^ (32 - s) := by
    rw [← Nat.pow_add]; congr 1; omega
  have hhi : v / 2 ^ (32 - s) < 2 ^ s := by
    rw [Nat.div_lt_iff_lt_mul (Nat.two_pow_pos _), ← hsplit]; exact hv
  have hmask : (v &&& rotateMask s) >>> (4 * BBITS - s) = v / 2 ^ (32 - s) := by
    rw [and_shiftRight, rotateMask_shiftRight s h1 h2, Nat.and_pow_two_sub_one_eq_mod,
      Nat.shiftRight_eq_div_pow, Nat.mod_eq_of_lt]
    · rfl
    · exact hhi
  have hlow : v * 2 ^ s % 2 ^ 32 = 2 ^ s * (v % 2 ^ (32 - s)) := by
    rw [hsplit, Nat.mul_comm v, Nat.mul_mod_mul_left]
  unfold rotateLeft Spec.rotl
  rw [hmask, Nat.shiftLeft_eq]
  show v * 2 ^ s % 2 ^ 32 ||| v / 2 ^ (32 - s) = _
  rw [hlow]
  exact (Nat.mul_add_lt_is_or hhi _).symm

theorem rotl_lt (v s : Nat) (hv : v < 2 ^ 32) (h1 : 1 ≤ s) (h2 : s ≤ 15) :
    Spec.rotl v s < 2 ^ 32 := by
  rw [← rotateLeft_eq_rotl v s hv h1 h2]
  unfold rotateLeft
  apply Nat.or_lt_two_pow
  · exact Nat.mod_lt _ (by decide)
  · calc (v &&& rotateMask s) >>> (4 * BBITS - s) ≤ v &&& rotateMask s := by
          rw [Nat.shiftRight_eq_div_pow]; exact Nat.div_le_self _ _
      _ ≤ v := Nat.and_le_left
      _ < 2 ^ 32 := hv

theorem hashIteration_eq_step (st : HashState) (x s k : Nat) (fn : Nat → Nat → Nat → Nat)
    (hst : st.valid) (h1 : 1 ≤ s) (h2 : s ≤ 15) :
    hashIteration st x s k fn = Spec.step fn x k s st ∧ (hashIteration st x s k fn).valid := by
  obtain ⟨hA, hB, hC, hD, hE⟩ := hst
  have hsum : (st.A + ((fn st.B st.C st.D + x) % WORD + k) % WORD) % WORD
      = (st.A + fn st.B st.C st.D + x + k) % 2 ^ 32 := by
    unfold WORD; omega
  have hlt : (st.A + fn st.B st.C st.D + x + k) % 2 ^ 32 < 2 ^ 32 := Nat.mod_lt _ (by decide)
  have heq : hashIteration st x s k fn = Spec.step fn x k s st := by
    unfold hashIteration Spec.step
    simp only [hsum, rotateLeft_eq_rotl _ s hlt h1 h2,
      rotateLeft_eq_rotl st.C NUM_C_ROTATIONS hC (by decide) (by decide)]
    rfl
  refine ⟨heq, ?_⟩
  rw [heq]
  exact ⟨hE, Nat.mod_lt _ (by decide), hB, rotl_lt _ _ hC (by decide) (by decide), hD⟩

theorem foldl_hashIteration_eq (data perm shift : List Nat) (k : Nat)
    (fn : Nat → Nat → Nat → Nat) (idx : List Nat)
    (hsh : ∀ i ∈ idx, 1 ≤ shift.getD i 0 ∧ shift.getD i 0 ≤ 15)
    (st : HashState) (hst : st.valid) :
    idx.foldl (fun st i => hashIteration st (data.getD (perm.getD i 0) 0) (shift.getD i 0) k fn)
        st
      = idx.foldl (fun st i => Spec.step fn (data.getD (perm.getD i 0) 0) k (shift.getD i 0) st)
        st ∧
    (idx.foldl (fun st i => hashIteration st (data.getD (perm.getD i 0) 0) (shift.getD i 0) k fn)
        st).valid := by
  induction idx generalizing st with
  | nil => exact ⟨rfl, hst⟩
  | cons i rest ih =>
    simp only [List.foldl_cons]
    have hi := hsh i (List.mem_cons_self _ _)
    obtain ⟨e, v⟩ := hashIteration_eq_step st (data.getD (perm.getD i 0) 0) (shift.getD i 0) k fn
      hst hi.1 hi.2
    have ih' := ih (fun j hj => hsh j (List.mem_cons_of_mem _ hj)) _ v
    rw [e] at ih' ⊢
    exact ih'

theorem hashRound_eq_round (data perm shift : List Nat) (k : Nat)
    (fn : Nat → Nat → Nat → Nat)
    (hsh : ∀ i ∈ List.range 16, 1 ≤ shift.getD i 0 ∧ shift.getD i 0 ≤ 15)
    (st : HashState) (hst : st.valid) :
    hashRound st data perm shift k fn
      = (List.range 16).foldl
        (fun st i => Spec.step fn (data.getD (perm.getD i 0) 0) k (shift.getD i 0) st) st ∧
    (hashRound st data perm shift k fn).valid :=
  foldl_hashIteration_eq data perm shift k fn (List.range 16) hsh st hst

theorem or_eq_add_of_lt (a c i : Nat) (h : a < 2 ^ i) : a ||| 2 ^ i * c = a + 2 ^ i * c := by
  rw [Nat.or_comm, Nat.add_comm]
  exact (Nat.mul_add_lt_is_or h c).symm

theorem getD_lt_of_forall (block : List Nat) (h : ∀ b ∈ block, b < 256) (k : Nat) :
    block.getD k 0 < 256 := by
  by_cases hk : k < block.length
  · rw [List.getD_eq_getElem _ _ hk]
    exact h _ (List.getElem_mem hk)
  · rw [List.getD_eq_default _ _ (by omega)]
    decide

theorem longwordAt_eq_word (block : List Nat) (h : ∀ b ∈ block, b < 256) (i : Nat) :
    longwordAt block i = Spec.word block i := by
  have h0 := getD_lt_of_forall block h (4 * i)
  have h1 := getD_lt_of_forall block h (4 * i + 1)
  have h2 := getD_lt_of_forall block h (4 * i + 2)
  have h3 := getD_lt_of_forall block h (4 * i + 3)
  show ((((0 ||| (block.getD (4 * i + 0) 0 <<< (0 * BBITS)) % WORD) |||
      (block.getD (4 * i + 1) 0 <<< (1 * BBITS)) % WORD) |||
      (block.getD (4 * i + 2) 0 <<< (2 * BBITS)) % WORD) |||
      (block.getD (4 * i + 3) 0 <<< (3 * BBITS)) % WORD) = _
  unfold Spec.word
  simp only [Nat.add_zero]
  generalize block.getD (4 * i) 0 = b0 at *
  generalize block.getD (4 * i + 1) 0 = b1 at *
  generalize block.getD (4 * i + 2) 0 = b2 at *
  generalize block.getD (4 * i + 3) 0 = b3 at *
  simp only [Nat.shiftLeft_eq, BBITS, WORD, Nat.add_zero, Nat.zero_mul, Nat.pow_zero, Nat.mul_one,
    Nat.zero_or, Nat.one_mul]
  rw [Nat.mod_eq_of_lt (by omega : b0 < 2 ^ 32),
    Nat.mod_eq_of_lt (by omega : b1 * 2 ^ 8 < 2 ^ 32),
    Nat.mod_eq_of_lt (by omega : b2 * 2 ^ (2 * 8) < 2 ^ 32),
    Nat.mod_eq_of_lt (by omega : b3 * 2 ^ (3 * 8) < 2 ^ 32)]
  rw [Nat.mul_comm b1, Nat.mul_comm b2, Nat.mul_comm b3]
  rw [or_eq_add_of_lt b0 b1 8 (by omega),
    or_eq_add_of_lt _ b2 (2 * 8) (by omega),
    or_eq_add_of_lt _ b3 (3 * 8) (by omega)]
  omega

theorem longwordArray_eq_words (block : List Nat) (h : ∀ b ∈ block, b < 256) :
    longwordArray block = Spec.words block := by
  unfold longwordArray Spec.words
  exact List.map_congr_left (fun i _ => longwordAt_eq_word block h i)

theorem line_eq_rounds (P Sh : List (List Nat)) (K : List Nat) (sel : Nat → Nat) (X : List Nat)
    (st : HashState) :
    Spec.line P Sh K sel X st
      = Spec.round P Sh K sel X 4 (Spec.round P Sh K sel X 3 (Spec.round P Sh K sel X 2
          (Spec.round P Sh K sel X 1 (Spec.round P Sh K sel X 0 st)))) := by
  have h5 : List.range 5 = [0, 1, 2, 3, 4] := by decide
  unfold Spec.line
  rw [h5]
  simp only [List.foldl_cons, List.foldl_nil]

theorem hashRound_eq_spec_round (P Sh : List (List Nat)) (K : List Nat) (sel : Nat → Nat)
    (X : List Nat) (j : Nat) (perm shift : List Nat) (k : Nat) (fn : Nat → Nat → Nat → Nat)
    (hP : P.getD j [] = perm) (hSh : Sh.getD j [] = shift) (hK : K.getD j 0 = k)
    (hf : Spec.f (sel j) = fn)
    (hsh : ∀ i ∈ List.range 16, 1 ≤ shift.getD i 0 ∧ shift.getD i 0 ≤ 15)
    (st : HashState) (hst : st.valid) :
    hashRound st X perm shift k fn = Spec.round P Sh K sel X j st ∧
    (hashRound st X perm shift k fn).valid := by
  obtain ⟨e, v⟩ := hashRound_eq_round X perm shift k fn hsh st hst
  refine ⟨?_, v⟩
  rw [e]
  unfold Spec.round
  rw [hP, hSh, hK, hf]

theorem leftSideRound_eq (st : HashState) (X : List Nat) (hst : st.valid) :
    leftSideRound st X = Spec.left X st := by
  obtain ⟨e0, v0⟩ := hashRound_eq_spec_round Spec.leftP Spec.leftSh Spec.leftK (fun j => j) X 0
    leftPerm0 leftShift0 leftNoise0 bitwiseF0 rfl rfl rfl rfl (by decide) st hst
  obtain ⟨e1, v1⟩ := hashRound_eq_spec_round Spec.leftP Spec.leftSh Spec.leftK (fun j => j) X 1
    leftPerm1 leftShift1 leftNoise1 bitwiseF1 rfl rfl rfl rfl (by decide) _ v0
  obtain ⟨e2, v2⟩ := hashRound_eq_spec_round Spec.leftP Spec.leftSh Spec.leftK (fun j => j) X 2
    leftPerm2 leftShift2 leftNoise2 bitwiseF2 rfl rfl rfl rfl (by decide) _ v1
  obtain ⟨e3, v3⟩ := hashRound_eq_spec_round Spec.leftP Spec.leftSh Spec.leftK (fun j => j) X 3
    leftPerm3 leftShift3 leftNoise3 bitwiseF3 rfl rfl rfl rfl (by decide) _ v2
  obtain ⟨e4, _⟩ := hashRound_eq_spec_round Spec.leftP Spec.leftSh Spec.leftK (fun j => j) X 4
    leftPerm4 leftShift4 leftNoise4 bitwiseF4 rfl rfl rfl rfl (by decide) _ v3
  unfold leftSideRound Spec.left
  rw [line_eq_rounds, e4, e3, e2, e1, e0]

theorem rightSideRound_eq (st : HashState) (X : List Nat) (hst : st.valid) :
    rightSideRound st X = Spec.right X st := by
  obtain ⟨e0, v0⟩ := hashRound_eq_spec_round Spec.rightP Spec.rightSh Spec.rightK
    (fun j => 4 - j) X 0 rightPerm0 rightShift0 rightNoise0 bitwiseF4 rfl rfl rfl (by funext x y z; rfl)
    (by decide) st hst
  obtain ⟨e1, v1⟩ := hashRound_eq_spec_round Spec.rightP Spec.rightSh Spec.rightK
    (fun j => 4 - j) X 1 rightPerm1 rightShift1 rightNoise1 bitwiseF3 rfl rfl rfl (by funext x y z; rfl)
    (by decide) _ v0
  obtain ⟨e2, v2⟩ := hashRound_eq_spec_round Spec.rightP Spec.rightSh Spec.rightK
    (fun j => 4 - j) X 2 rightPerm2 rightShift2 rightNoise2 bitwiseF2 rfl rfl rfl (by funext x y z; rfl)
    (by decide) _ v1
  obtain ⟨e3, v3⟩ := hashRound_eq_spec_round Spec.rightP Spec.rightSh Spec.rightK
    (fun j => 4 - j) X 3 rightPerm3 rightShift3 rightNoise3 bitwiseF1 rfl rfl rfl (by funext x y z; rfl)
    (by decide) _ v2
  obtain ⟨e4, _⟩ := hashRound_eq_spec_round Spec.rightP Spec.rightSh Spec.rightK
    (fun j => 4 - j) X 4 rightPerm4 rightShift4 rightNoise4 bitwiseF0 rfl rfl rfl (by funext x y z; rfl)
    (by decide) _ v3
  unfold rightSideRound Spec.right
  rw [line_eq_rounds, e4, e3, e2, e1, e0]

theorem hashBlock_refines (S : HashState) (block : List Nat) (hS : S.valid)
    (hbytes : ∀ b ∈ block, b < 256) : hashBlock S block = Spec.compress S block := by
  unfold hashBlock Spec.compress
  simp only [longwordArray_eq_words block hbytes, leftSideRound_eq S _ hS,
    rightSideRound_eq S _ hS, WORD, Nat.mod_add_mod]

/-- C4: for every chaining state `S` (five 32-bit words) and every 64-byte block,
`hashBlock` returns the state the specification's compression function
`Spec.compress` defines: the words `X[ 0 .. 15 ]` assembled least significant byte
first, `Left` and `Right` each computed from a copy of `S` by 5 rounds of 16 steps with
the specification's permutation, shift, constant and function tables, and the new
state `(S.B + Left.C + Right.D, S.C + Left.D + Right.E, S.D + Left.E + Right.A,
S.E + Left.A + Right.B, S.A + Left.B + Right.C)`, every sum modulo `2 ^ 32` and every
`S` component the pre-block value. -/
theorem hashBlock_eq_compress (S : HashState) (block : List Nat) (hS : S.valid)
    (_hlen : block.length = 64) (hbytes : ∀ b ∈ block, b < 256) :
    hashBlock S block = Spec.compress S block :=
  hashBlock_refines S block hS hbytes

/-- Witness for `hashBlock_eq_compress`: the first `hashBlock` test of `testdriver.c`. -/
theorem hashBlock_eq_compress_witness :
    hashBlock testState testBlock = Spec.compress testState testBlock :=
  hashBlock_eq_compress testState testBlock
    ⟨by decide, by decide, by decide, by decide, by decide⟩ (by decide) (by decide)

theorem hashBlock_testBlock :
    hashBlock testState testBlock
      = { A := 0xF56C82A5, B := 0x1E4B4FCF, C := 0x1B509AE4, D := 0xFBA0BB5D, E := 0xB9D73744 } := by
  decide

theorem hashBlock_valid (S : HashState) (block : List Nat) : (hashBlock S block).valid := by
  unfold hashBlock HashState.valid WORD
  exact ⟨Nat.mod_lt _ (by decide), Nat.mod_lt _ (by decide), Nat.mod_lt _ (by decide),
    Nat.mod_lt _ (by decide), Nat.mod_lt _ (by decide)⟩

theorem ripemd160_published_vectors :
    Spec.ripemd160 [] = emptyDigest.toList ∧
    Spec.ripemd160 [97] = "0bdc9d2d256b3ee9daae347be6f4dc835a467ffe".toList ∧
    Spec.ripemd160 [97, 98, 99] = "8eb208f7e05d987a9b044a8e98c6b087f15a0bfc".toList ∧
    Spec.ripemd160 [109, 101, 115, 115, 97, 103, 101, 32, 100, 105, 103, 101, 115, 116]
      = "5d0689ef49d2fae572b881b123a85ffa21595f36".toList := by
  decide

/-- C1 (code defect): for the 56-byte message `message56` the program prints
`a2784b0f41b3f2ecbb006cd3ce51d72f48f17f61`, while the RIPEMD-160 digest of that
message is `e72334b46c83cc70bef979e15453706c95b888be`. -/
theorem digest_message56 :
    message56.length < 2 ^ 29 ∧
    digest message56 = "a2784b0f41b3f2ecbb006cd3ce51d72f48f17f61".toList ++ ['\n'] ∧
    Spec.ripemd160 message56 = "e72334b46c83cc70bef979e15453706c95b888be".toList ∧
    digest message56 ≠ Spec.ripemd160 message56 ++ ['\n'] := by
  decide

theorem readFile_buffer (msg : List Nat) (hlen : msg.length < WORD) (hb : ∀ b ∈ msg, b < 256) :
    (msg.foldl addByte createBuffer).len = msg.length ∧
    (msg.foldl addByte createBuffer).bytes = msg ∧
    (msg.foldl addByte createBuffer).len ≤ (msg.foldl addByte createBuffer).data.length := by
  have h0 : createBuffer.len ≤ createBuffer.data.length := by decide
  have hl := foldl_addByte_len msg createBuffer (by decide)
  have hbytes := foldl_addByte_bytes msg createBuffer h0 (by simpa [createBuffer] using hlen)
  refine ⟨?_, ?_, foldl_addByte_wf msg createBuffer h0⟩
  · rw [hl]
    simpa [createBuffer] using Nat.mod_eq_of_lt hlen
  · rw [hbytes]
    have : msg.map (· % 256) = msg := by
      conv_rhs => rw [← List.map_id msg]
      exact List.map_congr_left (fun b hbm => Nat.mod_eq_of_lt (hb b hbm))
    simpa [ByteBuffer.bytes, createBuffer] using this

theorem blockAt_take (data : List Nat) (i n : Nat) (h : BLOCK_BYTES * (i + 1) ≤ n) :
    blockAt (data.take n) i = blockAt data i := by
  unfold blockAt
  rw [List.take_drop, List.take_drop, List.take_take, Nat.min_eq_left (by unfold BLOCK_BYTES at *; omega)]

theorem blocksFed_eq_bytes (b : ByteBuffer) :
    blocksFed b = (List.range (b.len / BLOCK_BYTES)).map (blockAt b.bytes) := by
  unfold blocksFed ByteBuffer.bytes
  apply List.map_congr_left
  intro i hi
  rw [List.mem_range] at hi
  rw [blockAt_take]
  have := Nat.div_mul_le_self b.len BLOCK_BYTES
  unfold BLOCK_BYTES at *
  omega

theorem blocksFed_congr (b1 b2 : ByteBuffer) (n : Nat) (h1 : b1.len / BLOCK_BYTES = n)
    (h2 : b2.len / BLOCK_BYTES = n)
    (h : b1.bytes.take (BLOCK_BYTES * n) = b2.bytes.take (BLOCK_BYTES * n)) :
    blocksFed b1 = blocksFed b2 := by
  rw [blocksFed_eq_bytes, blocksFed_eq_bytes, h1, h2]
  apply List.map_congr_left
  intro i hi
  rw [List.mem_range] at hi
  have hle : BLOCK_BYTES * (i + 1) ≤ BLOCK_BYTES * n := Nat.mul_le_mul_left _ hi
  rw [← blockAt_take b1.bytes i _ hle, ← blockAt_take b2.bytes i _ hle, h]

theorem hashBuffer_eq_foldl (b : ByteBuffer) :
    hashBuffer b = printHash ((blocksFed (padBuffer b)).foldl hashBlock
      (initState { A := 0, B := 0, C := 0, D := 0, E := 0 })) := by
  unfold hashBuffer hashBlocks blocksFed
  rw [List.foldl_map]

theorem padded_message (msg : List Nat) (hlen : msg.length + 128 ≤ WORD)
    (hb : ∀ b ∈ msg, b < 256) :
    (padBuffer (msg.foldl addByte createBuffer)).len
      = msg.length + (9 + zeroCount (toInt msg.length)) ∧
    (padBuffer (msg.foldl addByte createBuffer)).bytes = msg ++ padding msg.length := by
  obtain ⟨h1, h2, h3⟩ := readFile_buffer msg (by omega) hb
  have hno := padBuffer_noWrap msg.length hlen
  constructor
  · rw [padBuffer_len _ (by rw [h1]; omega), h1, Nat.mod_eq_of_lt hno]
  · rw [padBuffer_bytes _ h3 (by rw [h1]; exact hno), h1, h2]

theorem blocksFed_collision_of_length (M : List Nat) (hM : M.length = 2 ^ 20 + 60)
    (hb : ∀ b ∈ M, b < 256) :
    blocksFed (padBuffer (M.foldl addByte createBuffer))
      = blocksFed (padBuffer ((M ++ [0x80, 0xE0, 0x01]).foldl addByte createBuffer)) := by
  have hM' : (M ++ [0x80, 0xE0, 0x01]).length = 2 ^ 20 + 63 := by
    rw [List.length_append, hM]; rfl
  have hb' : ∀ b ∈ M ++ [0x80, 0xE0, 0x01], b < 256 := by
    intro b hbm
    rw [List.mem_append] at hbm
    rcases hbm with h | h
    · exact hb b h
    · revert b; decide
  obtain ⟨l1, p1⟩ := padded_message M (by rw [hM]; decide) hb
  obtain ⟨l2, p2⟩ := padded_message _ (by rw [hM']; decide) hb'
  rw [hM] at l1 p1
  rw [hM'] at l2 p2
  have e1 : padding (2 ^ 20 + 60) = [0x80, 0xE0, 0x01, 0x80] ++ [0, 0, 0, 0, 0] := by decide
  have e2 : padding (2 ^ 20 + 63) = [0x80] ++ [0xF8, 0x01, 0x80, 0, 0, 0, 0, 0] := by decide
  apply blocksFed_congr _ _ 16385
  · rw [l1]; decide
  · rw [l2]; decide
  · rw [p1, p2, e1, e2]
    have hN : BLOCK_BYTES * 16385 = M.length + 4 := by rw [hM]; decide
    rw [hN]
    have a1 : M ++ ([0x80, 0xE0, 0x01, 0x80] ++ [0, 0, 0, 0, 0])
        = (M ++ [0x80, 0xE0, 0x01, 0x80]) ++ [0, 0, 0, 0, 0] := by
      rw [List.append_assoc]
    have a2 : M ++ [0x80, 0xE0, 0x01] ++ ([0x80] ++ [0xF8, 0x01, 0x80, 0, 0, 0, 0, 0])
        = (M ++ [0x80, 0xE0, 0x01, 0x80]) ++ [0xF8, 0x01, 0x80, 0, 0, 0, 0, 0] := by
      simp only [List.append_assoc, List.cons_append, List.nil_append]
    rw [a1, a2, List.take_left' (by rw [List.length_append]; rfl),
      List.take_left' (by rw [List.length_append]; rfl)]

theorem digest_congr (m1 m2 : List Nat)
    (h : blocksFed (padBuffer (m1.foldl addByte createBuffer))
      = blocksFed (padBuffer (m2.foldl addByte createBuffer))) : digest m1 = digest m2 := by
  unfold digest
  rw [hashBuffer_eq_foldl, hashBuffer_eq_foldl, h]

/-- C8 (code defect): the two distinct messages `collisionA` (`2 ^ 20 + 60` zero bytes)
and `collisionB` (`collisionA` followed by `0x80, 0xE0, 0x01`), both shorter than
`2 ^ 29` bytes, give the same sequence of blocks to `hashBlock`, hence the same
digest. -/
theorem blocksFed_collision :
    collisionA ≠ collisionB ∧
    collisionA.length < 2 ^ 29 ∧ collisionB.length < 2 ^ 29 ∧
    blocksFed (padBuffer (collisionA.foldl addByte createBuffer))
      = blocksFed (padBuffer (collisionB.foldl addByte createBuffer)) ∧
    digest collisionA = digest collisionB := by
  have hA : collisionA.length = 2 ^ 20 + 60 := List.length_replicate _ _
  have hB : collisionB.length = 2 ^ 20 + 63 := by
    unfold collisionB
    rw [List.length_append, hA]; rfl
  have hbytes : ∀ b ∈ collisionA, b < 256 := by
    intro b hb
    rw [List.eq_of_mem_replicate hb]
    decide
  have hfed := blocksFed_collision_of_length collisionA hA hbytes
  refine ⟨?_, by rw [hA]; decide, by rw [hB]; decide, hfed, digest_congr _ _ hfed⟩
  intro h
  have := congrArg List.length h
  rw [hA, hB] at this
  exact absurd this (by decide)

/-- C14: `initState` sets the state to the fixed initial value `A = 0x67452301`,
`B = 0xEFCDAB89`, `C = 0x98BADCFE`, `D = 0x10325476`, `E = 0xC3D2E1F0`, whatever the
state held before. -/
theorem initState_value (state : HashState) :
    (initState state).A = 0x67452301 ∧ (initState state).B = 0xEFCDAB89 ∧
    (initState state).C = 0x98BADCFE ∧ (initState state).D = 0x10325476 ∧
    (initState state).E = 0xC3D2E1F0 :=
  ⟨rfl, rfl, rfl, rfl, rfl⟩

/-- C15: when the named input cannot be opened, `readFile` returns no buffer, and the
program ends with the failure status and nothing written to standard output, whatever
the argument count. -/
theorem main_unreadable (argc : Nat) :
    readFile none = none ∧
    (main argc none).status = EXIT_FAILURE ∧ (main argc none).stdout = [] ∧
    EXIT_FAILURE ≠ EXIT_SUCCESS := by
  refine ⟨rfl, ?_, ?_, by decide⟩
  · unfold main
    split <;> rfl
  · unfold main
    split <;> rfl

theorem rotateLeft_zero (v : Nat) (hv : v < 2 ^ 32) : rotateLeft v 0 = Spec.rotl v 0 := by
  have h1 : rotateLeft v 0 = v % WORD := by
    show ((v <<< 0) % WORD) ||| ((v &&& 0) >>> (4 * BBITS - 0)) = _
    rw [Nat.and_zero, Nat.zero_shiftRight, Nat.or_zero, Nat.shiftLeft_zero]
  have h2 : Spec.rotl v 0 = v % 2 ^ 32 + v / 2 ^ 32 := by
    show v * 2 ^ 0 % 2 ^ 32 + v / 2 ^ (32 - 0) = _
    rw [Nat.pow_zero, Nat.mul_one]
  rw [h1, h2, Nat.div_eq_of_lt hv]
  rfl

theorem rotateLeft_eq_rotl_le (v s : Nat) (hv : v < 2 ^ 32) (hs : s ≤ 15) :
    rotateLeft v s = Spec.rotl v s := by
  by_cases h0 : s = 0
  · subst h0; exact rotateLeft_zero v hv
  · exact rotateLeft_eq_rotl v s hv (by omega) hs

/-- C19: for every state `(A, B, C, D, E)` of 32-bit words, datum `X`, constant `K`,
nonlinear function `f` and shift `s` with `0 ≤ s ≤ 15`, `hashIteration` replaces the
state by `(E, T + E, B, rotl (C, 10), D)` where `T = rotl (A + f (B, C, D) + X + K, s)`,
`rotl` is the circular 32-bit left rotation, `f` is applied to the values of `B`, `C`,
`D` before any update, and every sum is modulo `2 ^ 32`. -/
theorem hashIteration_step (state : HashState) (X K s : Nat) (f : Nat → Nat → Nat → Nat)
    (hstate : state.valid) (hs : s ≤ 15) :
    hashIteration state X s K f =
      { A := state.E
        B := (Spec.rotl ((state.A + f state.B state.C state.D + X + K) % 2 ^ 32) s + state.E)
          % 2 ^ 32
        C := state.B
        D := Spec.rotl state.C 10
        E := state.D } := by
  obtain ⟨_, _, hC, _, _⟩ := hstate
  have hsum : (state.A + ((f state.B state.C state.D + X) % WORD + K) % WORD) % WORD
      = (state.A + f state.B state.C state.D + X + K) % 2 ^ 32 := by
    unfold WORD; omega
  have hlt : (state.A + f state.B state.C state.D + X + K) % 2 ^ 32 < 2 ^ 32 :=
    Nat.mod_lt _ (by decide)
  unfold hashIteration
  simp only [hsum, rotateLeft_eq_rotl_le _ s hlt hs,
    rotateLeft_eq_rotl state.C NUM_C_ROTATIONS hC (by decide) (by decide)]
  rfl

/-- Witness for `hashIteration_step`: the first `hashIteration` test of
`testdriver.c` (left round 0, iteration 1). -/
theorem hashIteration_step_witness :
    hashIteration
        { A := 0xC3D2E1F0, B := 0x614593FF, C := 0xEFCDAB89, D := 0xEB73FA62, E := 0x10325476 }
        0x20736920 14 0x00000000 bitwiseF0 =
      { A := 0x10325476
        B := (Spec.rotl ((0xC3D2E1F0 + bitwiseF0 0x614593FF 0xEFCDAB89 0xEB73FA62 + 0x20736920
          + 0x00000000) % 2 ^ 32) 14 + 0x10325476) % 2 ^ 32
        C := 0x614593FF
        D := Spec.rotl 0xEFCDAB89 10
        E := 0xEB73FA62 } :=
  hashIteration_step
    { A := 0xC3D2E1F0, B := 0x614593FF, C := 0xEFCDAB89, D := 0xEB73FA62, E := 0x10325476 }
    0x20736920 0x00000000 14 bitwiseF0
    ⟨by decide, by decide, by decide, by decide, by decide⟩ (by decide)

theorem foldl_range_eq_hashIterations (datum shift : Nat → Nat) (noise : Nat)
    (f : Nat → Nat → Nat → Nat) (n : Nat) (state : HashState) :
    (List.range n).foldl (fun st i => hashIteration st (datum i) (shift i) noise f) state
      = hashIterations datum shift noise f n state := by
  induction n with
  | zero => rfl
  | succ n ih =>
    rw [List.range_succ, List.foldl_append, ih]
    rfl

/-- C20: for every state, 16-word data array, table `perm` with all 16 entries in
`0 .. 15`, table `shift` with all 16 entries in `0 .. 15`, constant and nonlinear
function, `hashRound` equals 16 successive `hashIteration` steps, the `i`-th step
(`i = 0 .. 15` in increasing order) using the datum `data[ perm[ i ] ]` and the shift
amount `shift[ i ]`, every step the same constant and function; each of these array
reads is inside its array. -/
theorem hashRound_eq_hashIterations (state : HashState) (data perm shift : List Nat)
    (noise : Nat) (f : Nat → Nat → Nat → Nat) (hdata : data.length = 16)
    (hperm : perm.length = 16) (hshift : shift.length = 16)
    (hpermRange : ∀ p ∈ perm, p ≤ 15) (_hshiftRange : ∀ s ∈ shift, s ≤ 15) :
    hashRound state data perm shift noise f
      = hashIterations (fun i => data.getD (perm.getD i 0) 0) (fun i => shift.getD i 0) noise f
        16 state ∧
    ∀ i, i < 16 →
      ∃ p, perm[i]? = some p ∧ data[p]? = some (data.getD (perm.getD i 0) 0) ∧
        shift[i]? = some (shift.getD i 0) := by
  refine ⟨foldl_range_eq_hashIterations _ _ noise f 16 state, fun i hi => ?_⟩
  have hip : i < perm.length := by omega
  have his : i < shift.length := by omega
  have hp : perm.getD i 0 = perm[i] := List.getD_eq_getElem _ _ hip
  have hpd : perm[i] < data.length := by
    have := hpermRange perm[i] (List.getElem_mem hip)
    omega
  refine ⟨perm[i], List.getElem?_eq_getElem hip, ?_, ?_⟩
  · rw [hp, List.getD_eq_getElem _ _ hpd, List.getElem?_eq_getElem hpd]
  · rw [List.getD_eq_getElem _ _ his, List.getElem?_eq_getElem his]

/-- Witness for `hashRound_eq_hashIterations`: the second `hashRound` test of
`testdriver.c`. -/
theorem hashRound_eq_hashIterations_witness :
    hashRound roundTestState roundTestData roundTestPerm roundTestShift 0xD52E4431 bitwiseF0
      = hashIterations (fun i => roundTestData.getD (roundTestPerm.getD i 0) 0)
        (fun i => roundTestShift.getD i 0) 0xD52E4431 bitwiseF0 16 roundTestState ∧
    ∀ i, i < 16 →
      ∃ p, roundTestPerm[i]? = some p ∧
        roundTestData[p]? = some (roundTestData.getD (roundTestPerm.getD i 0) 0) ∧
        roundTestShift[i]? = some (roundTestShift.getD i 0) :=
  hashRound_eq_hashIterations roundTestState roundTestData roundTestPerm roundTestShift
    0xD52E4431 bitwiseF0 (by decide) (by decide) (by decide) (by decide) (by decide)

theorem hashRound_roundTest :
    hashRound roundTestState roundTestData roundTestPerm roundTestShift 0xD52E4431 bitwiseF0
      = { A := 0x3C27EB3F, B := 0x45B0E223, C := 0x5F477F1E, D := 0xA2BA24D6, E := 0x28752D9C } := by
  decide

theorem store_take_le (data : List Nat) (i k x : Nat) (h : i ≤ data.length) (hk : k ≤ i) :
    (store data i x).take k = data.take k := by
  apply List.ext_getElem?
  intro j
  rw [List.getElem?_take, List.getElem?_take]
  split
  · exact store_getElem?_ne data i j x h (by omega)
  · rfl

theorem addByte_congr (b1 b2 : ByteBuffer) (x : Nat) (h1 : b1.len ≤ b1.data.length)
    (h2 : b2.len ≤ b2.data.length) (hlen : b1.len = b2.len) (hbytes : b1.bytes = b2.bytes) :
    (addByte b1 x).len ≤ (addByte b1 x).data.length ∧
    (addByte b2 x).len ≤ (addByte b2 x).data.length ∧
    (addByte b1 x).len = (addByte b2 x).len ∧ (addByte b1 x).bytes = (addByte b2 x).bytes := by
  have hw : ∀ b : ByteBuffer, b.len ≤ b.data.length →
      (addByte b x).len ≤ (addByte b x).data.length := by
    intro b hb
    rw [addByte_len, addByte_data]
    have := store_length_ge b.data b.len (x % 256) hb
    have := Nat.mod_le (b.len + 1) WORD
    omega
  have hb : ∀ b : ByteBuffer, b.len ≤ b.data.length →
      (addByte b x).bytes
        = if b.len + 1 < WORD then b.bytes ++ [x % 256] else b.bytes.take ((b.len + 1) % WORD) := by
    intro b hb
    unfold ByteBuffer.bytes
    rw [addByte_len, addByte_data]
    split
    · rename_i hlt
      rw [Nat.mod_eq_of_lt hlt, store_take _ _ _ hb]
    · rename_i hge
      have hle : (b.len + 1) % WORD ≤ b.len := by
        have := Nat.mod_lt (b.len + 1) (by decide : 0 < WORD)
        omega
      rw [store_take_le _ _ _ _ hb hle, List.take_take, Nat.min_eq_left hle]
  refine ⟨hw b1 h1, hw b2 h2, by rw [addByte_len, addByte_len, hlen], ?_⟩
  rw [hb b1 h1, hb b2 h2, hlen, hbytes]

theorem foldl_addByte_congr (xs : List Nat) (b1 b2 : ByteBuffer) (h1 : b1.len ≤ b1.data.length)
    (h2 : b2.len ≤ b2.data.length) (hlen : b1.len = b2.len) (hbytes : b1.bytes = b2.bytes) :
    (xs.foldl addByte b1).len = (xs.foldl addByte b2).len ∧
    (xs.foldl addByte b1).bytes = (xs.foldl addByte b2).bytes := by
  induction xs generalizing b1 b2 with
  | nil => exact ⟨hlen, hbytes⟩
  | cons x xs ih =>
    simp only [List.foldl_cons]
    obtain ⟨w1, w2, e1, e2⟩ := addByte_congr b1 b2 x h1 h2 hlen hbytes
    exact ih _ _ w1 w2 e1 e2

theorem hashBuffer_congr (b1 b2 : ByteBuffer) (h1 : b1.len ≤ b1.data.length)
    (h2 : b2.len ≤ b2.data.length) (hlen : b1.len = b2.len) (hbytes : b1.bytes = b2.bytes) :
    hashBuffer b1 = hashBuffer b2 := by
  have hp : (padBuffer b1).len = (padBuffer b2).len ∧
      (padBuffer b1).bytes = (padBuffer b2).bytes := by
    rw [padBuffer_eq_foldl, padBuffer_eq_foldl, hlen]
    exact foldl_addByte_congr _ b1 b2 h1 h2 hlen hbytes
  rw [hashBuffer_eq_foldl, hashBuffer_eq_foldl, blocksFed_eq_bytes, blocksFed_eq_bytes, hp.1,
    hp.2]

theorem printHash_eq (state : HashState) : printHash state = digestHex state ++ ['\n'] := by
  simp only [printHash, PRINT_STATE_REVERSED_eq, digestHex]

theorem digestHex_length (state : HashState) : (digestHex state).length = 40 := by
  simp [digestHex, wordHex_length]

/-- C17 (amended): padding the ASCII message `testing 1, 2, 3...`, which is 18 bytes
long, gives a buffer of length 64 whose byte 18 is `0x80` and whose final 8 bytes are
`0x90, 0, 0, 0, 0, 0, 0, 0`, the little-endian encoding of a bit length of 144. -/
theorem padBuffer_testingMessage :
    testingMessage.length = 18 ∧
    (padBuffer (testingMessage.foldl addByte createBuffer)).len = 64 ∧
    (padBuffer (testingMessage.foldl addByte createBuffer)).data[18]? = some 0x80 ∧
    (padBuffer (testingMessage.foldl addByte createBuffer)).lastBytes 8
      = [0x90, 0, 0, 0, 0, 0, 0, 0] ∧
    littleEndian 8 144 = [0x90, 0, 0, 0, 0, 0, 0, 0] ∧
    8 * testingMessage.length = 144 ∧
    (padBuffer (testingMessage.foldl addByte createBuffer)).data
      = testingMessage ++ [0x80] ++ List.replicate 37 0 ++ [0x90, 0, 0, 0, 0, 0, 0, 0] := by
  decide

/-- C17 (counterexample): the message `testing 1, 2, 3...` is not 19 bytes long, and
the final 8 bytes `0x90, 0, 0, 0, 0, 0, 0, 0` of its padded buffer are not the
little-endian encoding of 152. -/
theorem padBuffer_testingMessage_counterexample :
    testingMessage.length ≠ 19 ∧
    (padBuffer (testingMessage.foldl addByte createBuffer)).lastBytes 8 ≠ littleEndian 8 152 ∧
    littleEndian 8 152 = [0x98, 0, 0, 0, 0, 0, 0, 0] := by
  decide

theorem foldl_hashBlock_eq_compress (blocks : List (List Nat)) (S : HashState) (hS : S.valid)
    (hb : ∀ blk ∈ blocks, ∀ b ∈ blk, b < 256) :
    blocks.foldl hashBlock S = blocks.foldl Spec.compress S := by
  induction blocks generalizing S with
  | nil => rfl
  | cons blk rest ih =>
    simp only [List.foldl_cons]
    rw [← hashBlock_refines S blk hS (hb blk (List.mem_cons_self _ _))]
    exact ih _ (hashBlock_valid S blk) (fun b hbm => hb b (List.mem_cons_of_mem _ hbm))

theorem padding_lt (L : Nat) : ∀ x ∈ padding L, x < 256 := by
  intro x hx
  have h := padding_map_mod L
  have : x ∈ (padding L).map (· % 256) := by rw [h]; exact hx
  obtain ⟨y, _, hy⟩ := List.mem_map.1 this
  rw [← hy]
  exact Nat.mod_lt _ (by decide)

theorem littleEndian_bitLength (L : Nat) (h : L < 2 ^ 29) :
    littleEndian 8 (8 * L % 2 ^ 64)
      = [(L * 8 % WORD) % 256, (L * 8 % WORD) / 2 ^ 8 % 256, (L * 8 % WORD) / 2 ^ 16 % 256,
         (L * 8 % WORD) / 2 ^ 24 % 256] ++ [0, 0, 0, 0] := by
  simp only [littleEndian, List.range_succ, List.range_zero, List.nil_append, List.map_append,
    List.map_cons, List.map_nil, List.cons_append, List.cons.injEq, and_true, WORD]
  refine ⟨?_, ?_, ?_, ?_, ?_, ?_, ?_, ?_⟩ <;> omega

theorem spec_pad_eq (msg : List Nat) (hlen : msg.length < 2 ^ 29) (hmod : msg.length % 64 ≤ 55) :
    Spec.pad msg = msg ++ padding msg.length := by
  unfold Spec.pad
  rw [padding_eq, zeroCount_small _ (by omega), littleEndian_bitLength _ hlen]
  have hz : (119 - msg.length % 64) % 64 = 55 - msg.length % 64 := by omega
  rw [hz]
  simp only [List.append_assoc]

theorem blocksFed_eq_spec_blocks (msg : List Nat) (hlen : msg.length < 2 ^ 29)
    (hmod : msg.length % 64 ≤ 55) (hb : ∀ b ∈ msg, b < 256) :
    blocksFed (padBuffer (msg.foldl addByte createBuffer)) = Spec.blocks (Spec.pad msg) := by
  obtain ⟨l, p⟩ := padded_message msg (by unfold WORD; omega) hb
  rw [blocksFed_eq_bytes, p, l, spec_pad_eq msg hlen hmod]
  unfold Spec.blocks blockAt BLOCK_BYTES
  rw [List.length_append, padding_length]
  apply List.map_congr_left
  intro i _
  rw [Nat.mul_comm]

theorem spec_blocks_lt (padded : List Nat) (hb : ∀ b ∈ padded, b < 256) :
    ∀ blk ∈ Spec.blocks padded, ∀ b ∈ blk, b < 256 := by
  intro blk hblk b hbm
  unfold Spec.blocks at hblk
  obtain ⟨i, _, hi⟩ := List.mem_map.1 hblk
  rw [← hi] at hbm
  exact hb b (List.mem_of_mem_drop (List.mem_of_mem_take hbm))

theorem digest_eq_ripemd160 (msg : List Nat) (hlen : msg.length < 2 ^ 29)
    (hmod : msg.length % 64 ≤ 55) (hb : ∀ b ∈ msg, b < 256) :
    digest msg = Spec.ripemd160 msg ++ ['\n'] := by
  have hpad : ∀ b ∈ Spec.pad msg, b < 256 := by
    rw [spec_pad_eq msg hlen hmod]
    intro b hbm
    rcases List.mem_append.1 hbm with h | h
    · exact hb b h
    · exact padding_lt _ b h
  unfold digest Spec.ripemd160 Spec.finalState
  rw [hashBuffer_eq_foldl, printHash_eq, blocksFed_eq_spec_blocks msg hlen hmod hb]
  have hiv : initState { A := 0, B := 0, C := 0, D := 0, E := 0 } = Spec.iv := rfl
  rw [hiv, foldl_hashBlock_eq_compress _ Spec.iv
    ⟨by decide, by decide, by decide, by decide, by decide⟩ (spec_blocks_lt _ hpad)]

/-- C18: for every message whose byte length `L` satisfies `L < 2 ^ 29` and
`L mod 64 ≤ 55`, the digest the program prints (`padBuffer`, `hashBlock` over all
blocks from the `initState` value, hex rendering, then a newline) is the standard
RIPEMD-160 digest of the message. -/
theorem digest_standard (msg : List Nat) (hbytes : ∀ b ∈ msg, b < 256)
    (hlen : msg.length < 2 ^ 29) (hmod : msg.length % 64 ≤ 55) :
    digest msg = Spec.ripemd160 msg ++ ['\n'] ∧
    (main 2 (some msg)).stdout = Spec.ripemd160 msg ++ ['\n'] :=
  ⟨digest_eq_ripemd160 msg hlen hmod hbytes, digest_eq_ripemd160 msg hlen hmod hbytes⟩

/-- Witness for `digest_standard`: the message `testing 1, 2, 3...`. -/
theorem digest_standard_witness :
    digest testingMessage = Spec.ripemd160 testingMessage ++ ['\n'] ∧
    (main 2 (some testingMessage)).stdout = Spec.ripemd160 testingMessage ++ ['\n'] :=
  digest_standard testingMessage (by decide) (by decide) (by decide)

theorem complement_testBit (a : Nat) (ha : a < 2 ^ 32) (i : Nat) :
    (complement a).testBit i = (decide (i < 32) && !a.testBit i) := by
  have h : complement a = 2 ^ 32 - (a + 1) := by unfold complement WORD; omega
  rw [h]
  exact Nat.testBit_two_pow_sub_succ ha i

theorem complement_lt (a : Nat) : complement a < 2 ^ 32 := by
  unfold complement WORD; omega

/-- C25: for all 32-bit words `x`, `y`, `z` the five combiners compute the
specification's formulas bit by bit, with `not` the 32-bit complement:
`bitwiseF0 = x xor y xor z`, `bitwiseF1 = (x and y) or (not x and z)`,
`bitwiseF2 = (x or not y) xor z`, `bitwiseF3 = (x and z) or (y and not z)`,
`bitwiseF4 = x xor (y or not z)`; the results are 32-bit words; and
`bitwiseF0 (1, 3, 7) = 5`. -/
theorem bitwiseF_formulas (x y z : Nat) (hx : x < 2 ^ 32) (hy : y < 2 ^ 32) (hz : z < 2 ^ 32) :
    (∀ i, i < 32 →
      (bitwiseF0 x y z).testBit i = xor (xor (x.testBit i) (y.testBit i)) (z.testBit i) ∧
      (bitwiseF1 x y z).testBit i
        = ((x.testBit i && y.testBit i) || (!x.testBit i && z.testBit i)) ∧
      (bitwiseF2 x y z).testBit i = xor (x.testBit i || !y.testBit i) (z.testBit i) ∧
      (bitwiseF3 x y z).testBit i
        = ((x.testBit i && z.testBit i) || (y.testBit i && !z.testBit i)) ∧
      (bitwiseF4 x y z).testBit i = xor (x.testBit i) (y.testBit i || !z.testBit i)) ∧
    (bitwiseF0 x y z < 2 ^ 32 ∧ bitwiseF1 x y z < 2 ^ 32 ∧ bitwiseF2 x y z < 2 ^ 32 ∧
      bitwiseF3 x y z < 2 ^ 32 ∧ bitwiseF4 x y z < 2 ^ 32) ∧
    (bitwiseF0 x y z = Spec.f 0 x y z ∧ bitwiseF1 x y z = Spec.f 1 x y z ∧
      bitwiseF2 x y z = Spec.f 2 x y z ∧ bitwiseF3 x y z = Spec.f 3 x y z ∧
      bitwiseF4 x y z = Spec.f 4 x y z) ∧
    bitwiseF0 1 3 7 = 5 := by
  refine ⟨fun i hi => ?_, ?_, ⟨rfl, rfl, rfl, rfl, rfl⟩, by decide⟩
  · simp only [bitwiseF0, bitwiseF1, bitwiseF2, bitwiseF3, bitwiseF4, Nat.testBit_xor,
      Nat.testBit_and, Nat.testBit_or, complement_testBit _ hx, complement_testBit _ hy,
      complement_testBit _ hz, hi, decide_True, Bool.true_and, and_self]
  · have cx := complement_lt x
    have cy := complement_lt y
    have cz := complement_lt z
    exact ⟨Nat.xor_lt_two_pow (Nat.xor_lt_two_pow hx hy) hz,
      Nat.or_lt_two_pow (Nat.and_lt_two_pow _ hy) (Nat.and_lt_two_pow _ hz),
      Nat.xor_lt_two_pow (Nat.or_lt_two_pow hx cy) hz,
      Nat.or_lt_two_pow (Nat.and_lt_two_pow _ hz) (Nat.and_lt_two_pow _ cz),
      Nat.xor_lt_two_pow hx (Nat.or_lt_two_pow hy cz)⟩

/-- Witness for `bitwiseF_formulas`: the second test of the five functions in
`testdriver.c`. -/
theorem bitwiseF_formulas_witness :
    (∀ i, i < 32 →
      (bitwiseF0 0xAB659F92 0xE4C6A120 0xC0D29093).testBit i
        = xor (xor (Nat.testBit 0xAB659F92 i) (Nat.testBit 0xE4C6A120 i))
          (Nat.testBit 0xC0D29093 i) ∧
      (bitwiseF1 0xAB659F92 0xE4C6A120 0xC0D29093).testBit i
        = ((Nat.testBit 0xAB659F92 i && Nat.testBit 0xE4C6A120 i) ||
          (!Nat.testBit 0xAB659F92 i && Nat.testBit 0xC0D29093 i)) ∧
      (bitwiseF2 0xAB659F92 0xE4C6A120 0xC0D29093).testBit i
        = xor (Nat.testBit 0xAB659F92 i || !Nat.testBit 0xE4C6A120 i)
          (Nat.testBit 0xC0D29093 i) ∧
      (bitwiseF3 0xAB659F92 0xE4C6A120 0xC0D29093).testBit i
        = ((Nat.testBit 0xAB659F92 i && Nat.testBit 0xC0D29093 i) ||
          (Nat.testBit 0xE4C6A120 i && !Nat.testBit 0xC0D29093 i)) ∧
      (bitwiseF4 0xAB659F92 0xE4C6A120 0xC0D29093).testBit i
        = xor (Nat.testBit 0xAB659F92 i)
          (Nat.testBit 0xE4C6A120 i || !Nat.testBit 0xC0D29093 i)) ∧
    (bitwiseF0 0xAB659F92 0xE4C6A120 0xC0D29093 < 2 ^ 32 ∧
      bitwiseF1 0xAB659F92 0xE4C6A120 0xC0D29093 < 2 ^ 32 ∧
      bitwiseF2 0xAB659F92 0xE4C6A120 0xC0D29093 < 2 ^ 32 ∧
      bitwiseF3 0xAB659F92 0xE4C6A120 0xC0D29093 < 2 ^ 32 ∧
      bitwiseF4 0xAB659F92 0xE4C6A120 0xC0D29093 < 2 ^ 32) ∧
    (bitwiseF0 0xAB659F92 0xE4C6A120 0xC0D29093 = Spec.f 0 0xAB659F92 0xE4C6A120 0xC0D29093 ∧
      bitwiseF1 0xAB659F92 0xE4C6A120 0xC0D29093 = Spec.f 1 0xAB659F92 0xE4C6A120 0xC0D29093 ∧
      bitwiseF2 0xAB659F92 0xE4C6A120 0xC0D29093 = Spec.f 2 0xAB659F92 0xE4C6A120 0xC0D29093 ∧
      bitwiseF3 0xAB659F92 0xE4C6A120 0xC0D29093 = Spec.f 3 0xAB659F92 0xE4C6A120 0xC0D29093 ∧
      bitwiseF4 0xAB659F92 0xE4C6A120 0xC0D29093 = Spec.f 4 0xAB659F92 0xE4C6A120 0xC0D29093) ∧
    bitwiseF0 1 3 7 = 5 :=
  bitwiseF_formulas 0xAB659F92 0xE4C6A120 0xC0D29093 (by decide) (by decide) (by decide)

theorem bitwiseF_tests :
    bitwiseF0 1 3 7 = 0x00000005 ∧ bitwiseF1 1 3 7 = 0x00000007 ∧
    bitwiseF2 1 3 7 = 0xFFFFFFFA ∧ bitwiseF3 1 3 7 = 0x00000001 ∧
    bitwiseF4 1 3 7 = 0xFFFFFFFA ∧
    bitwiseF0 0xAB659F92 0xE4C6A120 0xC0D29093 = 0x8F71AE21 ∧
    bitwiseF1 0xAB659F92 0xE4C6A120 0xC0D29093 = 0xE0D68101 ∧
    bitwiseF2 0xAB659F92 0xE4C6A120 0xC0D29093 = 0x7BAF4F4C ∧
    bitwiseF3 0xAB659F92 0xE4C6A120 0xC0D29093 = 0xA444B1B2 ∧
    bitwiseF4 0xAB659F92 0xE4C6A120 0xC0D29093 = 0x548A70FE := by
  decide

/-- C26: each of the ten message-word order tables of `hashBlock` (`leftPerm0 .. 4`,
`rightPerm0 .. 4`) is a permutation of `0 .. 15`: it has 16 entries, every index
`0 .. 15` occurs exactly once, and every entry is below 16, so every read
`data[ perm[ i ] ]` is inside the 16-word array. -/
theorem permTables_permutations :
    permTables.length = 10 ∧
    ∀ t ∈ permTables,
      t.length = 16 ∧ List.Perm t (List.range 16) ∧ (∀ k, k < 16 → t.count k = 1) ∧
      (∀ p ∈ t, p < 16) ∧ (∀ i, i < 16 → t.getD i 0 < 16) := by
  decide

theorem rotl_testBit (v s : Nat) (hv : v < 2 ^ 32) (hs : s ≤ 31) (i : Nat) (hi : i < 32) :
    (Spec.rotl v s).testBit i = v.testBit ((i + 32 - s) % 32) := by
  have hsplit : (2 : Nat) ^ 32 = 2 ^ s * 2 ^ (32 - s) := by
    rw [← Nat.pow_add]; congr 1; omega
  have hhi : v / 2 ^ (32 - s) < 2 ^ s := by
    rw [Nat.div_lt_iff_lt_mul (Nat.two_pow_pos _), ← hsplit]; exact hv
  have hlow : v * 2 ^ s % 2 ^ 32 = 2 ^ s * (v % 2 ^ (32 - s)) := by
    rw [hsplit, Nat.mul_comm v, Nat.mul_mod_mul_left]
  unfold Spec.rotl
  rw [hlow, Nat.testBit_mul_pow_two_add _ hhi]
  split
  · rename_i hlt
    rw [← Nat.shiftRight_eq_div_pow, Nat.testBit_shiftRight]
    congr 1
    rw [Nat.mod_eq_of_lt (by omega)]
    omega
  · rename_i hge
    rw [Nat.testBit_mod_two_pow]
    have h1 : i - s < 32 - s := by omega
    have h2 : (i + 32 - s) % 32 = i - s := by
      rw [show i + 32 - s = (i - s) + 32 by omega, Nat.add_mod_right]
      exact Nat.mod_eq_of_lt (by omega)
    rw [h2]
    simp [h1]

theorem rotateMask_value (s : Nat) (h1 : 1 ≤ s) (h2 : s ≤ 15) :
    rotateMask s = 2 ^ 32 - 2 ^ (32 - s) := by
  interval_cases s <;> rfl

theorem rotateMask_testBit (s : Nat) (h1 : 1 ≤ s) (h2 : s ≤ 15) (i : Nat) :
    (rotateMask s).testBit i = decide (32 - s ≤ i ∧ i < 32) := by
  have hsplit : (2 : Nat) ^ 32 = 2 ^ (32 - s) * 2 ^ s := by
    rw [← Nat.pow_add]; congr 1; omega
  have hval : rotateMask s = 2 ^ (32 - s) * (2 ^ s - 1) + 0 := by
    rw [rotateMask_value s h1 h2, Nat.add_zero, Nat.mul_sub, Nat.mul_one, ← hsplit]
  rw [hval, Nat.testBit_mul_pow_two_add _ (Nat.two_pow_pos _)]
  split
  · rename_i hlt
    have : ¬ (32 - s ≤ i ∧ i < 32) := by omega
    rw [Nat.zero_testBit]
    exact (decide_eq_false this).symm
  · rename_i hge
    rw [Nat.testBit_two_pow_sub_one]
    have : (i - (32 - s) < s) ↔ (32 - s ≤ i ∧ i < 32) := by omega
    exact decide_eq_decide.mpr this

/-- C21 (amended): for every 32-bit value `v` and every shift amount `s` with
`0 ≤ s ≤ 15` (the amounts `hashBlock` and the tests pass), `rotateLeft (v, s)` is the
circular left rotation of `v` by `s` bits within 32 bits: bit `i` of the result is bit
`i - s` (modulo 32) of `v`, so the `s` high-order bits of `v` reappear as the `s`
low-order bits of the result and no bit is lost. -/
theorem rotateLeft_circular (v s : Nat) (hv : v < 2 ^ 32) (hs : s ≤ 15) :
    rotateLeft v s = Spec.rotl v s ∧
    rotateLeft v s < 2 ^ 32 ∧
    ∀ i, i < 32 → (rotateLeft v s).testBit i = v.testBit ((i + 32 - s) % 32) := by
  have he := rotateLeft_eq_rotl_le v s hv hs
  refine ⟨he, ?_, fun i hi => ?_⟩
  · unfold rotateLeft
    apply Nat.or_lt_two_pow
    · exact Nat.mod_lt _ (by decide)
    · calc (v &&& rotateMask s) >>> (4 * BBITS - s) ≤ v &&& rotateMask s := by
            rw [Nat.shiftRight_eq_div_pow]; exact Nat.div_le_self _ _
        _ ≤ v := Nat.and_le_left
        _ < 2 ^ 32 := hv
  · rw [he]
    exact rotl_testBit v s hv (by omega) i hi

/-- Witness for `rotateLeft_circular`: the fourth `rotateLeft` test of `testdriver.c`. -/
theorem rotateLeft_circular_witness :
    (0x9C913C27 : Nat) < 2 ^ 32 ∧ (11 : Nat) ≤ 15 ∧
    (rotateLeft 0x9C913C27 11 = Spec.rotl 0x9C913C27 11 ∧
      rotateLeft 0x9C913C27 11 < 2 ^ 32 ∧
      ∀ i, i < 32 →
        (rotateLeft 0x9C913C27 11).testBit i = Nat.testBit 0x9C913C27 ((i + 32 - 11) % 32)) ∧
    rotateLeft 0x9C913C27 11 = 0x89E13CE4 :=
  ⟨by decide, by decide, rotateLeft_circular 0x9C913C27 11 (by decide) (by decide), by decide⟩

/-- C21 (counterexample): for the shift amount 16 the `if` chain of `rotateLeft` selects
no mask (it lists the amounts 1 to 15), and the high-order bits are dropped instead of
wrapping around: `rotateLeft (0x80000000, 16)` is 0, while the circular rotation is
`0x00008000` (bit 15 of the result is not bit 31 of the value); likewise
`rotateLeft (0xFFFFFFFF, 31)` is `0x80000000`, not `0xFFFFFFFF`. -/
theorem rotateLeft_loses_bits :
    rotateMask 16 = 0 ∧
    rotateLeft 0x80000000 16 = 0 ∧
    Spec.rotl 0x80000000 16 = 0x00008000 ∧
    rotateLeft 0x80000000 16 ≠ Spec.rotl 0x80000000 16 ∧
    (rotateLeft 0x80000000 16).testBit 15 ≠ Nat.testBit 0x80000000 ((15 + 32 - 16) % 32) ∧
    rotateLeft 0xFFFFFFFF 31 = 0x80000000 ∧
    Spec.rotl 0xFFFFFFFF 31 = 0xFFFFFFFF := by
  decide

theorem rotateLeft_tests :
    rotateLeft 0x00000001 1 = 0x00000002 ∧ rotateLeft 0x80000000 1 = 0x00000001 ∧
    rotateLeft 0x6223818F 3 = 0x111C0C7B ∧ rotateLeft 0x9C913C27 11 = 0x89E13CE4 := by
  decide

/-- C28: for every 32-bit value `v` and every shift amount `s` with `1 ≤ s ≤ 15`,
`rotateLeft (v, s)` equals `(v * 2 ^ s mod 2 ^ 32) + floor (v / 2 ^ (32 - s))`, the
exact circular left rotation by `s` bits; the mask selected for `s` is exactly the
`s` high-order bits of a 32-bit word. -/
theorem rotateLeft_formula (v s : Nat) (hv : v < 2 ^ 32) (h1 : 1 ≤ s) (h2 : s ≤ 15) :
    rotateLeft v s = v * 2 ^ s % 2 ^ 32 + v / 2 ^ (32 - s) ∧
    rotateMask s = 2 ^ 32 - 2 ^ (32 - s) ∧
    ∀ i, (rotateMask s).testBit i = decide (32 - s ≤ i ∧ i < 32) :=
  ⟨rotateLeft_eq_rotl v s hv h1 h2, rotateMask_value s h1 h2, rotateMask_testBit s h1 h2⟩

/-- Witness for `rotateLeft_formula`: the third `rotateLeft` test of `testdriver.c`. -/
theorem rotateLeft_formula_witness :
    rotateLeft 0x6223818F 3 = 0x6223818F * 2 ^ 3 % 2 ^ 32 + 0x6223818F / 2 ^ (32 - 3) ∧
    rotateMask 3 = 2 ^ 32 - 2 ^ (32 - 3) ∧
    ∀ i, (rotateMask 3).testBit i = decide (32 - 3 ≤ i ∧ i < 32) :=
  rotateLeft_formula 0x6223818F 3 (by decide) (by decide) (by decide)

theorem hashIterationWith_rotateLeft :
    hashIterationWith rotateLeft = hashIteration := rfl

theorem hashRoundWith_rotateLeft (state : HashState) (data perm shift : List Nat) (noise : Nat)
    (f : Nat → Nat → Nat → Nat) :
    hashRoundWith rotateLeft state data perm shift noise f
      = hashRound state data perm shift noise f := by
  unfold hashRoundWith hashRound
  rw [hashIterationWith_rotateLeft]

theorem hashBlockWith_rotateLeft (state : HashState) (block : List Nat) :
    hashBlockWith rotateLeft state block = hashBlock state block := by
  unfold hashBlockWith hashBlock leftSideRoundWith rightSideRoundWith leftSideRound
    rightSideRound
  simp only [hashRoundWith_rotateLeft]

theorem hashIterationWith_rotl (st : HashState) (x s k : Nat) (fn : Nat → Nat → Nat → Nat) :
    hashIterationWith Spec.rotl st x s k fn = Spec.step fn x k s st := by
  have hsum : (st.A + ((fn st.B st.C st.D + x) % WORD + k) % WORD) % WORD
      = (st.A + fn st.B st.C st.D + x + k) % 2 ^ 32 := by
    unfold WORD; omega
  unfold hashIterationWith Spec.step
  simp only [hsum]
  rfl

theorem hashRoundWith_rotl (data perm shift : List Nat) (k : Nat)
    (fn : Nat → Nat → Nat → Nat)
    (hsh : ∀ i ∈ List.range 16, 1 ≤ shift.getD i 0 ∧ shift.getD i 0 ≤ 15)
    (st : HashState) (hst : st.valid) :
    hashRoundWith Spec.rotl st data perm shift k fn = hashRound st data perm shift k fn ∧
    (hashRound st data perm shift k fn).valid := by
  obtain ⟨e, v⟩ := hashRound_eq_round data perm shift k fn hsh st hst
  refine ⟨?_, v⟩
  rw [e]
  unfold hashRoundWith
  simp only [hashIterationWith_rotl]
  rfl

theorem leftSideRoundWith_rotl (st : HashState) (X : List Nat) (hst : st.valid) :
    leftSideRoundWith Spec.rotl st X = leftSideRound st X := by
  obtain ⟨e0, v0⟩ := hashRoundWith_rotl X leftPerm0 leftShift0 leftNoise0 bitwiseF0
    (by decide) st hst
  obtain ⟨e1, v1⟩ := hashRoundWith_rotl X leftPerm1 leftShift1 leftNoise1 bitwiseF1
    (by decide) _ v0
  obtain ⟨e2, v2⟩ := hashRoundWith_rotl X leftPerm2 leftShift2 leftNoise2 bitwiseF2
    (by decide) _ v1
  obtain ⟨e3, v3⟩ := hashRoundWith_rotl X leftPerm3 leftShift3 leftNoise3 bitwiseF3
    (by decide) _ v2
  obtain ⟨e4, _⟩ := hashRoundWith_rotl X leftPerm4 leftShift4 leftNoise4 bitwiseF4
    (by decide) _ v3
  unfold leftSideRoundWith leftSideRound
  simp only [e0, e1, e2, e3, e4]

theorem rightSideRoundWith_rotl (st : HashState) (X : List Nat) (hst : st.valid) :
    rightSideRoundWith Spec.rotl st X = rightSideRound st X := by
  obtain ⟨e0, v0⟩ := hashRoundWith_rotl X rightPerm0 rightShift0 rightNoise0 bitwiseF4
    (by decide) st hst
  obtain ⟨e1, v1⟩ := hashRoundWith_rotl X rightPerm1 rightShift1 rightNoise1 bitwiseF3
    (by decide) _ v0
  obtain ⟨e2, v2⟩ := hashRoundWith_rotl X rightPerm2 rightShift2 rightNoise2 bitwiseF2
    (by decide) _ v1
  obtain ⟨e3, v3⟩ := hashRoundWith_rotl X rightPerm3 rightShift3 rightNoise3 bitwiseF1
    (by decide) _ v2
  obtain ⟨e4, _⟩ := hashRoundWith_rotl X rightPerm4 rightShift4 rightNoise4 bitwiseF0
    (by decide) _ v3
  unfold rightSideRoundWith rightSideRound
  simp only [e0, e1, e2, e3, e4]

theorem shiftTables_range :
    shiftTables.length = 10 ∧
    ∀ t ∈ shiftTables, t.length = 16 ∧ ∀ s ∈ t, 5 ≤ s ∧ s ≤ 15 := by
  decide

/-- C29: every shift amount that `hashBlock` passes to `rotateLeft` lies in `1 .. 15`:
each entry of the ten shift tables (`leftShift0 .. 4`, `rightShift0 .. 4`) is between
5 and 15 inclusive, and the fixed rotation of `C` is 10; hence `hashBlock` with the
true 32-bit circular rotation in place of `rotateLeft` gives the same result, for
every state of 32-bit words and every block. -/
theorem hashBlock_rotation_independent (S : HashState) (block : List Nat) (hS : S.valid) :
    (shiftTables.length = 10 ∧
      ∀ t ∈ shiftTables, t.length = 16 ∧ ∀ s ∈ t, 5 ≤ s ∧ s ≤ 15) ∧
    NUM_C_ROTATIONS = 10 ∧
    hashBlockWith rotateLeft S block = hashBlock S block ∧
    hashBlockWith Spec.rotl S block = hashBlock S block := by
  refine ⟨shiftTables_range, rfl, hashBlockWith_rotateLeft S block, ?_⟩
  unfold hashBlockWith hashBlock
  simp only [leftSideRoundWith_rotl S _ hS, rightSideRoundWith_rotl S _ hS]

/-- Witness for `hashBlock_rotation_independent`: the first `hashBlock` test of
`testdriver.c`. -/
theorem hashBlock_rotation_independent_witness :
    (shiftTables.length = 10 ∧
      ∀ t ∈ shiftTables, t.length = 16 ∧ ∀ s ∈ t, 5 ≤ s ∧ s ≤ 15) ∧
    NUM_C_ROTATIONS = 10 ∧
    hashBlockWith rotateLeft testState testBlock = hashBlock testState testBlock ∧
    hashBlockWith Spec.rotl testState testBlock = hashBlock testState testBlock :=
  hashBlock_rotation_independent testState testBlock
    ⟨by decide, by decide, by decide, by decide, by decide⟩

theorem addByte_capacity_step (b : ByteBuffer) (x : Nat) (k : Nat) (hk : k ≤ 29)
    (hcap : b.cap = 5 * 2 ^ k) (hle : b.len ≤ b.cap) (hhalf : b.cap = 5 ∨ b.cap < 2 * b.len)
    (hroom : b.len + 1 ≤ 5 * 2 ^ 29) :
    (addByte b x).len = b.len + 1 ∧ (addByte b x).len ≤ (addByte b x).cap ∧
    ((addByte b x).cap = 5 ∨ (addByte b x).cap < 2 * (addByte b x).len) ∧
    ∃ k', k' ≤ 29 ∧ (addByte b x).cap = 5 * 2 ^ k' := by
  obtain ⟨hlen, hle', k', hk', hcap'⟩ := addByte_growth_step b x k hk hcap hle hroom
  refine ⟨hlen, hle', ?_, k', hk', hcap'⟩
  have hdef : (addByte b x).cap = if b.len ≥ b.cap then (b.cap * 2) % WORD else b.cap := rfl
  by_cases hfull : b.len ≥ b.cap
  · have hmod := Nat.mod_le (b.cap * 2) WORD
    rw [hdef, if_pos hfull, hlen]
    right
    omega
  · rw [hdef, if_neg hfull, hlen]
    rcases hhalf with h | h
    · left; exact h
    · right; omega

theorem foldl_addByte_capacity (bs : List Nat) (b : ByteBuffer) (k : Nat) (hk : k ≤ 29)
    (hcap : b.cap = 5 * 2 ^ k) (hle : b.len ≤ b.cap) (hhalf : b.cap = 5 ∨ b.cap < 2 * b.len)
    (hroom : b.len + bs.length ≤ 5 * 2 ^ 29) :
    (bs.foldl addByte b).len = b.len + bs.length ∧
    (bs.foldl addByte b).len ≤ (bs.foldl addByte b).cap ∧
    ((bs.foldl addByte b).cap = 5 ∨ (bs.foldl addByte b).cap < 2 * (bs.foldl addByte b).len) ∧
    ∃ k', k' ≤ 29 ∧ (bs.foldl addByte b).cap = 5 * 2 ^ k' := by
  induction bs generalizing b k with
  | nil => exact ⟨rfl, hle, hhalf, k, hk, hcap⟩
  | cons x xs ih =>
    simp only [List.foldl_cons, List.length_cons] at *
    obtain ⟨h1, h2, h3, k', hk', h4⟩ := addByte_capacity_step b x k hk hcap hle hhalf (by omega)
    obtain ⟨h5, h6⟩ := ih (addByte b x) k' hk' h4 h2 h3 (by omega)
    exact ⟨by omega, h6⟩

theorem capacity_between (a c i j : Nat) (ha : a = 5 * 2 ^ i) (hc : c = 5 * 2 ^ j) (h1 : a < c)
    (h2 : c < 4 * a) : c = 2 * a := by
  have hij : i < j := by
    rw [← Nat.pow_lt_pow_iff_right (by decide : 1 < 2)]; omega
  have hji : j < i + 2 := by
    rw [← Nat.pow_lt_pow_iff_right (by decide : 1 < 2), Nat.pow_add]; omega
  have : j = i + 1 := by omega
  subst this
  rw [ha, hc, Nat.pow_succ]
  omega

/-- C27: for every `L` with `0 ≤ L ≤ 2 ^ 29`, with `c1` the capacity of a fresh buffer
after `L` calls of `addByte` and `c2` its capacity after `L` further calls (`2 * L` in
total), `c2 = 2 * c1` if and only if `L ≥ 3`. -/
theorem capacity_doubles_iff (bs1 bs2 : List Nat) (hsame : bs2.length = bs1.length)
    (hL : bs1.length ≤ 2 ^ 29) :
    (bs2.foldl addByte (bs1.foldl addByte createBuffer)).cap
        = 2 * (bs1.foldl addByte createBuffer).cap ↔
      3 ≤ bs1.length := by
  have h0 : createBuffer.cap = 5 * 2 ^ 0 := rfl
  obtain ⟨l1, le1, half1, k1, hk1, c1⟩ := foldl_addByte_capacity bs1 createBuffer 0 (by decide)
    h0 (by decide) (Or.inl rfl) (by show 0 + bs1.length ≤ _; omega)
  obtain ⟨l2, le2, half2, k2, _, c2⟩ := foldl_addByte_capacity bs2 _ k1 hk1 c1 le1 half1
    (by rw [l1, hsame]; show 0 + bs1.length + bs1.length ≤ _; omega)
  have hl1 : (bs1.foldl addByte createBuffer).len = bs1.length := by
    rw [l1]; show 0 + bs1.length = _; omega
  rw [l1, hsame] at l2
  have hl2 : (bs2.foldl addByte (bs1.foldl addByte createBuffer)).len = 2 * bs1.length := by
    rw [l2]; show 0 + bs1.length + bs1.length = _; omega
  rw [hl1] at le1 half1
  rw [hl2] at le2 half2
  have p1 : 0 < 2 ^ k1 := Nat.two_pow_pos k1
  have p2 : 0 < 2 ^ k2 := Nat.two_pow_pos k2
  constructor
  · intro h
    by_contra hlt
    omega
  · intro h3
    exact capacity_between _ _ k1 k2 c1 c2 (by omega) (by omega)

/-- Witness for `capacity_doubles_iff`: three bytes, then three more. -/
theorem capacity_doubles_iff_witness :
    ([46, 46, 46].foldl addByte ([118, 119, 120].foldl addByte createBuffer)).cap
        = 2 * ([118, 119, 120].foldl addByte createBuffer).cap ↔
      3 ≤ [118, 119, 120].length :=
  capacity_doubles_iff [118, 119, 120] [46, 46, 46] (by decide) (by decide)

theorem padBuffer_len_small (b : ByteBuffer) (hL : b.len < 2 ^ 31) :
    (padBuffer b).len = b.len + 9 + (55 - b.len % 64) := by
  rw [padBuffer_len b (by unfold WORD; omega), zeroCount_small _ hL,
    Nat.mod_eq_of_lt (by unfold WORD; omega)]
  omega

theorem addByteChecked_eq (b : ByteBuffer) (x : Nat) :
    addByteChecked b x = if b.len < (addByte b x).cap then some (addByte b x) else none := rfl

theorem addByteChecked_of_lt (b : ByteBuffer) (x : Nat) (h : b.len < (addByte b x).cap) :
    addByteChecked b x = some (addByte b x) := by
  rw [addByteChecked_eq, if_pos h]

theorem addByteChecked_of_le (b : ByteBuffer) (x : Nat) (h : (addByte b x).cap ≤ b.len) :
    addByteChecked b x = none := by
  rw [addByteChecked_eq, if_neg (by omega)]

theorem foldlM_addByteChecked_append (xs ys : List Nat) (b : ByteBuffer) :
    (xs ++ ys).foldlM addByteChecked b
      = (xs.foldlM addByteChecked b).bind (ys.foldlM addByteChecked) := by
  rw [List.foldlM_append]
  rfl

theorem addZerosChecked_eq_foldlM (n : Nat) (b : ByteBuffer) :
    addZerosChecked n b = (List.replicate n 0).foldlM addByteChecked b := by
  induction n generalizing b with
  | zero => rfl
  | succ n ih =>
    rw [List.replicate_succ, List.foldlM_cons, addZerosChecked]
    cases h : addByteChecked b 0 with
    | none => rfl
    | some b' => exact ih b'

theorem padBufferChecked_eq_foldlM (b : ByteBuffer) :
    padBufferChecked b = (padding b.len).foldlM addByteChecked b := by
  unfold padBufferChecked padding
  simp only [addZerosChecked_eq_foldlM, foldlM_addByteChecked_append, List.foldlM_cons,
    List.foldlM_nil]
  cases addByteChecked b LAST_BYTE_IN_LAST_BLOCK with
  | none => rfl
  | some b1 =>
    simp only [Option.bind_some, Option.some_bind, Option.bind_eq_bind, Option.pure_def,
      Option.bind_assoc]

theorem foldlM_addByteChecked_growth (xs : List Nat) (b : ByteBuffer) (k : Nat) (hk : k ≤ 29)
    (hcap : b.cap = 5 * 2 ^ k) (hle : b.len ≤ b.cap)
    (hroom : b.len + xs.length ≤ 5 * 2 ^ 29) :
    xs.foldlM addByteChecked b = some (xs.foldl addByte b) := by
  induction xs generalizing b k with
  | nil => rfl
  | cons x xs ih =>
    simp only [List.length_cons] at hroom
    obtain ⟨h1, h2, k', hk', h3⟩ := addByte_growth_step b x k hk hcap hle (by omega)
    rw [List.foldlM_cons, addByteChecked_of_lt b x (by omega), List.foldl_cons]
    exact ih (addByte b x) k' hk' h3 h2 (by omega)

theorem foldlM_addByteChecked_overflow (xs : List Nat) (b : ByteBuffer) (k : Nat) (hk : k ≤ 29)
    (hcap : b.cap = 5 * 2 ^ k) (hle : b.len ≤ b.cap)
    (hover : 5 * 2 ^ 29 < b.len + xs.length) :
    xs.foldlM addByteChecked b = none := by
  have hpow : 5 * 2 ^ k ≤ 5 * 2 ^ 29 :=
    Nat.mul_le_mul_left 5 (Nat.pow_le_pow_right (by decide) hk)
  induction xs generalizing b k with
  | nil =>
    simp only [List.length_nil] at hover
    omega
  | cons x xs ih =>
    simp only [List.length_cons] at hover
    rw [List.foldlM_cons]
    by_cases hfull : b.len = 5 * 2 ^ 29
    · have hc : b.cap = 5 * 2 ^ 29 := by omega
      have hnew : (addByte b x).cap = 2 ^ 30 := by
        show (if b.len ≥ b.cap then (b.cap * 2) % WORD else b.cap) = _
        rw [if_pos (by omega), hc]
        decide
      rw [addByteChecked_of_le b x (by rw [hnew, hfull]; decide)]
      rfl
    · obtain ⟨h1, h2, k', hk', h3⟩ := addByte_growth_step b x k hk hcap hle (by omega)
      rw [addByteChecked_of_lt b x (by omega)]
      exact ih (addByte b x) k' hk' h3 h2 (by omega)
        (Nat.mul_le_mul_left 5 (Nat.pow_le_pow_right (by decide) hk'))

theorem addByteChecked_room (b : ByteBuffer) (x : Nat) (hpos : 0 < b.cap) (hcap : b.cap < WORD)
    (hle : b.len ≤ b.cap) (h31 : b.len < 2 ^ 31) :
    addByteChecked b x = some (addByte b x) ∧ 0 < (addByte b x).cap ∧
    (addByte b x).cap < WORD ∧ (addByte b x).len ≤ (addByte b x).cap ∧
    (addByte b x).len = b.len + 1 := by
  have hdef : (addByte b x).cap = if b.len ≥ b.cap then (b.cap * 2) % WORD else b.cap := rfl
  have hlen : (addByte b x).len = b.len + 1 := by
    rw [addByte_len]; exact Nat.mod_eq_of_lt (by unfold WORD; omega)
  have hnew : b.len < (addByte b x).cap ∧ (addByte b x).cap < WORD := by
    rw [hdef]
    by_cases hfull : b.len ≥ b.cap
    · rw [if_pos hfull, Nat.mod_eq_of_lt (by unfold WORD; omega)]
      unfold WORD
      omega
    · rw [if_neg hfull]
      omega
  exact ⟨addByteChecked_of_lt b x hnew.1, by omega, hnew.2, by omega, hlen⟩

theorem foldlM_addByteChecked_room (xs : List Nat) (b : ByteBuffer) (hpos : 0 < b.cap)
    (hcap : b.cap < WORD) (hle : b.len ≤ b.cap) (hroom : b.len + xs.length ≤ 2 ^ 31) :
    xs.foldlM addByteChecked b = some (xs.foldl addByte b) := by
  induction xs generalizing b with
  | nil => rfl
  | cons x xs ih =>
    simp only [List.length_cons] at hroom
    obtain ⟨h1, h2, h3, h4, h5⟩ := addByteChecked_room b x hpos hcap hle (by omega)
    rw [List.foldlM_cons, h1, List.foldl_cons]
    exact ih (addByte b x) h2 h3 h4 (by omega)

theorem foldl_addByte_cap_top (xs : List Nat) (h1 : 5 * 2 ^ 28 < xs.length)
    (h2 : xs.length ≤ 5 * 2 ^ 29) :
    (xs.foldl addByte createBuffer).len = xs.length ∧
    (xs.foldl addByte createBuffer).cap = 5 * 2 ^ 29 := by
  obtain ⟨l, le, _, k, hk, c⟩ := foldl_addByte_capacity xs createBuffer 0 (by decide) rfl
    (by decide) (Or.inl rfl) (by show 0 + xs.length ≤ _; omega)
  have hl : (xs.foldl addByte createBuffer).len = xs.length := by
    rw [l]; show 0 + xs.length = _; omega
  refine ⟨hl, ?_⟩
  have hk29 : k = 29 := by
    by_contra hne
    have hk28 : k ≤ 28 := by omega
    have := Nat.pow_le_pow_right (by decide : 0 < 2) hk28
    omega
  rw [c, hk29]

theorem readFileChecked_eq (m : List Nat) (h : m.length ≤ 5 * 2 ^ 29) :
    readFileChecked m = some (m.foldl addByte createBuffer) :=
  foldlM_addByteChecked_growth m createBuffer 0 (by decide) rfl (by decide)
    (by show 0 + m.length ≤ _; omega)

theorem padded_length_le (L : Nat) (h : L ≤ 5 * 2 ^ 29 - 64) :
    L + (9 + zeroCount (toInt L)) ≤ 5 * 2 ^ 29 := by
  by_cases hs : L < 2 ^ 31
  · rw [zeroCount_small L hs]; omega
  · rw [zeroCount_big L (by omega) (by unfold WORD; omega)]; unfold WORD; omega

theorem padBufferChecked_eq (m : List Nat) (h : m.length ≤ 5 * 2 ^ 29 - 64) :
    padBufferChecked (m.foldl addByte createBuffer)
      = some (padBuffer (m.foldl addByte createBuffer)) := by
  obtain ⟨l, le, _, k, hk, c⟩ := foldl_addByte_capacity m createBuffer 0 (by decide) rfl
    (by decide) (Or.inl rfl) (by show 0 + m.length ≤ _; omega)
  have hl : (m.foldl addByte createBuffer).len = m.length := by
    rw [l]; show 0 + m.length = _; omega
  rw [padBufferChecked_eq_foldlM, padBuffer_eq_foldl]
  apply foldlM_addByteChecked_growth _ _ k hk c le
  rw [hl, padding_length]
  exact padded_length_le _ h

theorem padBufferChecked_overflow (m : List Nat) (h1 : 5 * 2 ^ 29 - 64 < m.length)
    (h2 : m.length ≤ 5 * 2 ^ 29) :
    padBufferChecked (m.foldl addByte createBuffer) = none := by
  obtain ⟨l, le, _, k, hk, c⟩ := foldl_addByte_capacity m createBuffer 0 (by decide) rfl
    (by decide) (Or.inl rfl) (by show 0 + m.length ≤ _; omega)
  have hl : (m.foldl addByte createBuffer).len = m.length := by
    rw [l]; show 0 + m.length = _; omega
  rw [padBufferChecked_eq_foldlM]
  apply foldlM_addByteChecked_overflow _ _ k hk c le
  rw [hl, padding_length, zeroCount_big _ (by omega) (by unfold WORD; omega)]
  omega

theorem zeroFile_length (n : Nat) : (zeroFile n).length = n := List.length_replicate _ _

theorem zeroFile_bytes (n : Nat) : ∀ x ∈ zeroFile n, x < 256 := by
  intro x hx
  rw [List.eq_of_mem_replicate hx]
  decide

theorem addByte_cap_full (b : ByteBuffer) (x : Nat) (h : b.len ≥ b.cap) :
    (addByte b x).cap = (b.cap * 2) % WORD := by
  show (if b.len ≥ b.cap then (b.cap * 2) % WORD else b.cap) = _
  rw [if_pos h]

theorem addByte_cap_top (b : ByteBuffer) (x : Nat) (hl : b.len = 5 * 2 ^ 29)
    (hc : b.cap = 5 * 2 ^ 29) :
    (addByte b x).cap = 2 ^ 30 ∧ addByteChecked b x = none := by
  have hnew : (addByte b x).cap = 2 ^ 30 := by
    rw [addByte_cap_full b x (by omega), hc]
    decide
  exact ⟨hnew, addByteChecked_of_le b x (by rw [hnew, hl]; decide)⟩

theorem load_len (m : List Nat) (h : m.length ≤ 5 * 2 ^ 29) :
    (m.foldl addByte createBuffer).len = m.length ∧
    (m.foldl addByte createBuffer).len ≤ (m.foldl addByte createBuffer).data.length := by
  refine ⟨?_, foldl_addByte_wf m createBuffer (by decide)⟩
  rw [foldl_addByte_len m createBuffer (by decide)]
  show (0 + m.length) % WORD = _
  rw [Nat.zero_add]
  exact Nat.mod_eq_of_lt (by unfold WORD; omega)

/-- C5 (amended): for every message of `L ≤ 5 * 2 ^ 29 - 64` bytes, `readFile` and
`padBuffer` stay within the heap array, and the last 8 bytes of the buffer after
`padBuffer` are the four little-endian bytes of `8 * L mod 2 ^ 32` followed by four
zero bytes; for `L < 2 ^ 29` they are `8 * L` written as a 64-bit little-endian
integer. -/
theorem padBuffer_length_field (m : List Nat) (hL : m.length ≤ 5 * 2 ^ 29 - 64) :
    readFileChecked m = some (m.foldl addByte createBuffer) ∧
    padBufferChecked (m.foldl addByte createBuffer)
      = some (padBuffer (m.foldl addByte createBuffer)) ∧
    (padBuffer (m.foldl addByte createBuffer)).lastBytes 8
      = littleEndian 4 (8 * m.length % 2 ^ 32) ++ [0, 0, 0, 0] ∧
    (m.length < 2 ^ 29 →
      (padBuffer (m.foldl addByte createBuffer)).lastBytes 8
        = littleEndian 8 (8 * m.length)) := by
  obtain ⟨hl, hwf⟩ := load_len m (by omega)
  have h := padBuffer_lastBytes (m.foldl addByte createBuffer) hwf (by rw [hl]; omega)
  rw [hl] at h
  exact ⟨readFileChecked_eq m (by omega), padBufferChecked_eq m hL, h⟩

/-- Witness for `padBuffer_length_field`: the 56-byte message. -/
theorem padBuffer_length_field_witness :
    message56.length ≤ 5 * 2 ^ 29 - 64 ∧
    readFileChecked message56 = some (message56.foldl addByte createBuffer) ∧
    padBufferChecked (message56.foldl addByte createBuffer)
      = some (padBuffer (message56.foldl addByte createBuffer)) ∧
    (padBuffer (message56.foldl addByte createBuffer)).lastBytes 8
      = littleEndian 4 (8 * message56.length % 2 ^ 32) ++ [0, 0, 0, 0] ∧
    (message56.length < 2 ^ 29 →
      (padBuffer (message56.foldl addByte createBuffer)).lastBytes 8
        = littleEndian 8 (8 * message56.length)) :=
  ⟨by decide, padBuffer_length_field message56 (by decide)⟩

/-- C5 (counterexample): a file of `5 * 2 ^ 29 - 63` zero bytes is read in full and
leaves `len = 5 * 2 ^ 29 - 63` and `cap = 5 * 2 ^ 29`; `padBuffer` has 127 bytes to
append, and the 64th of them finds `len = cap = 5 * 2 ^ 29`: the doubled capacity wraps
around to `2 ^ 30` and the store lies outside the array.  `padBuffer` has no defined
result, so there is no padded buffer whose last 8 bytes could hold the length. -/
theorem padBuffer_length_field_counterexample :
    (zeroFile (5 * 2 ^ 29 - 63)).length = 5 * 2 ^ 29 - 63 ∧
    readFileChecked (zeroFile (5 * 2 ^ 29 - 63))
      = some ((zeroFile (5 * 2 ^ 29 - 63)).foldl addByte createBuffer) ∧
    ((zeroFile (5 * 2 ^ 29 - 63)).foldl addByte createBuffer).len = 5 * 2 ^ 29 - 63 ∧
    ((zeroFile (5 * 2 ^ 29 - 63)).foldl addByte createBuffer).cap = 5 * 2 ^ 29 ∧
    (padding (5 * 2 ^ 29 - 63)).length = 127 ∧
    padBufferChecked ((zeroFile (5 * 2 ^ 29 - 63)).foldl addByte createBuffer) = none := by
  have hlen := zeroFile_length (5 * 2 ^ 29 - 63)
  obtain ⟨hl, hc⟩ := foldl_addByte_cap_top (zeroFile (5 * 2 ^ 29 - 63))
    (by rw [hlen]; decide) (by rw [hlen]; decide)
  refine ⟨hlen, readFileChecked_eq _ (by rw [hlen]; decide), by rw [hl, hlen], hc, ?_,
    padBufferChecked_overflow _ (by rw [hlen]; decide) (by rw [hlen]; decide)⟩
  rw [padding_length]
  decide

/-- C6 (amended): for every message of `L ≤ 5 * 2 ^ 29 - 64` bytes, `readFile` and
`padBuffer` stay within the heap array, and after `padBuffer` the byte at offset `L` is
`0x80` and every byte at an offset from `L + 1` up to the padded length minus 9,
inclusive, is zero. -/
theorem padBuffer_marker_and_zeros (m : List Nat) (hL : m.length ≤ 5 * 2 ^ 29 - 64) :
    readFileChecked m = some (m.foldl addByte createBuffer) ∧
    padBufferChecked (m.foldl addByte createBuffer)
      = some (padBuffer (m.foldl addByte createBuffer)) ∧
    (padBuffer (m.foldl addByte createBuffer)).data[m.length]? = some 0x80 ∧
    ∀ i, m.length + 1 ≤ i → i + 9 ≤ (padBuffer (m.foldl addByte createBuffer)).len →
      (padBuffer (m.foldl addByte createBuffer)).data[i]? = some 0 := by
  obtain ⟨hl, hwf⟩ := load_len m (by omega)
  have h := padBuffer_zeros (m.foldl addByte createBuffer) hwf (by rw [hl]; omega)
  rw [hl] at h
  exact ⟨readFileChecked_eq m (by omega), padBufferChecked_eq m hL, h⟩

/-- Witness for `padBuffer_marker_and_zeros`: the 18-byte message `testing 1, 2, 3...`,
whose padded buffer has 64 bytes: the marker is at offset 18 and the zero bytes are at
the offsets 19 to 55. -/
theorem padBuffer_marker_and_zeros_witness :
    testingMessage.length ≤ 5 * 2 ^ 29 - 64 ∧
    (readFileChecked testingMessage = some (testingMessage.foldl addByte createBuffer) ∧
      padBufferChecked (testingMessage.foldl addByte createBuffer)
        = some (padBuffer (testingMessage.foldl addByte createBuffer)) ∧
      (padBuffer (testingMessage.foldl addByte createBuffer)).data[testingMessage.length]?
        = some 0x80 ∧
      ∀ i, testingMessage.length + 1 ≤ i →
        i + 9 ≤ (padBuffer (testingMessage.foldl addByte createBuffer)).len →
        (padBuffer (testingMessage.foldl addByte createBuffer)).data[i]? = some 0) ∧
    testingMessage.length + 1 = 19 ∧
    (padBuffer (testingMessage.foldl addByte createBuffer)).len = 55 + 9 ∧
    (padBuffer (testingMessage.foldl addByte createBuffer)).data[19]? = some 0 ∧
    (padBuffer (testingMessage.foldl addByte createBuffer)).data[55]? = some 0 :=
  ⟨by decide, padBuffer_marker_and_zeros testingMessage (by decide), by decide, by decide,
    (padBuffer_marker_and_zeros testingMessage (by decide)).2.2.2 19 (by decide) (by decide),
    (padBuffer_marker_and_zeros testingMessage (by decide)).2.2.2 55 (by decide) (by decide)⟩

/-- C6 (counterexample): a file of `5 * 2 ^ 29` zero bytes is read in full and leaves
`len = cap = 5 * 2 ^ 29`.  The first call of `addByte` in `padBuffer`, the one that
should store `0x80` at offset `L`, doubles the capacity to `2 ^ 30` (modulo `2 ^ 32`),
which is below `len`: the store lies outside the array and `padBuffer` has no defined
result. -/
theorem padBuffer_marker_and_zeros_counterexample :
    (zeroFile (5 * 2 ^ 29)).length = 5 * 2 ^ 29 ∧
    readFileChecked (zeroFile (5 * 2 ^ 29))
      = some ((zeroFile (5 * 2 ^ 29)).foldl addByte createBuffer) ∧
    ((zeroFile (5 * 2 ^ 29)).foldl addByte createBuffer).len = 5 * 2 ^ 29 ∧
    ((zeroFile (5 * 2 ^ 29)).foldl addByte createBuffer).cap = 5 * 2 ^ 29 ∧
    (addByte ((zeroFile (5 * 2 ^ 29)).foldl addByte createBuffer) 0x80).cap = 2 ^ 30 ∧
    addByteChecked ((zeroFile (5 * 2 ^ 29)).foldl addByte createBuffer) 0x80 = none ∧
    padBufferChecked ((zeroFile (5 * 2 ^ 29)).foldl addByte createBuffer) = none := by
  have hlen := zeroFile_length (5 * 2 ^ 29)
  obtain ⟨hl, hc⟩ := foldl_addByte_cap_top (zeroFile (5 * 2 ^ 29))
    (by rw [hlen]; decide) (Nat.le_of_eq hlen)
  rw [hlen] at hl
  obtain ⟨hnew, hnone⟩ := addByte_cap_top _ 0x80 hl hc
  exact ⟨hlen, readFileChecked_eq _ (Nat.le_of_eq hlen), hl, hc, hnew, hnone,
    padBufferChecked_overflow _ (by rw [hlen]; decide) (Nat.le_of_eq hlen)⟩

/-- C7 (amended): for every message of `L ≤ 5 * 2 ^ 29 - 64` bytes, `readFile` and
`padBuffer` stay within the heap array and `padBuffer` only appends: the first `L`
bytes of the buffer after `padBuffer` are the original message bytes in their original
order, and the new length is greater than `L`. -/
theorem padBuffer_appends (m : List Nat) (hb : ∀ x ∈ m, x < 256)
    (hL : m.length ≤ 5 * 2 ^ 29 - 64) :
    readFileChecked m = some (m.foldl addByte createBuffer) ∧
    padBufferChecked (m.foldl addByte createBuffer)
      = some (padBuffer (m.foldl addByte createBuffer)) ∧
    (m.foldl addByte createBuffer).len = m.length ∧
    (m.foldl addByte createBuffer).data.take m.length = m ∧
    (padBuffer (m.foldl addByte createBuffer)).data.take m.length = m ∧
    m.length < (padBuffer (m.foldl addByte createBuffer)).len := by
  obtain ⟨hl, hbytes, hwf⟩ := readFile_buffer m (by unfold WORD; omega) hb
  have h := padBuffer_prefix (m.foldl addByte createBuffer) hwf (by rw [hl]; omega)
  unfold ByteBuffer.bytes at hbytes
  rw [hl] at h hbytes
  exact ⟨readFileChecked_eq m (by omega), padBufferChecked_eq m hL, hl, hbytes,
    h.1.trans hbytes, h.2⟩

/-- Witness for `padBuffer_appends`: the 56-byte message. -/
theorem padBuffer_appends_witness :
    (∀ x ∈ message56, x < 256) ∧ message56.length ≤ 5 * 2 ^ 29 - 64 ∧
    readFileChecked message56 = some (message56.foldl addByte createBuffer) ∧
    padBufferChecked (message56.foldl addByte createBuffer)
      = some (padBuffer (message56.foldl addByte createBuffer)) ∧
    (message56.foldl addByte createBuffer).len = message56.length ∧
    (message56.foldl addByte createBuffer).data.take message56.length = message56 ∧
    (padBuffer (message56.foldl addByte createBuffer)).data.take message56.length
      = message56 ∧
    message56.length < (padBuffer (message56.foldl addByte createBuffer)).len :=
  ⟨by decide, by decide, padBuffer_appends message56 (by decide) (by decide)⟩

/-- C7 (counterexample): a file of `5 * 2 ^ 29 - 1` zero bytes is read in full and
leaves `len = 5 * 2 ^ 29 - 1` and `cap = 5 * 2 ^ 29`.  `padBuffer` stores the marker in
the last free cell; its next call of `addByte` finds `len = cap`, the doubled capacity
wraps around to `2 ^ 30`, and the store lies outside the array: `padBuffer` has no
defined result, so no buffer with a greater length comes out of it. -/
theorem padBuffer_appends_counterexample :
    (∀ x ∈ zeroFile (5 * 2 ^ 29 - 1), x < 256) ∧
    (zeroFile (5 * 2 ^ 29 - 1)).length = 5 * 2 ^ 29 - 1 ∧
    readFileChecked (zeroFile (5 * 2 ^ 29 - 1))
      = some ((zeroFile (5 * 2 ^ 29 - 1)).foldl addByte createBuffer) ∧
    ((zeroFile (5 * 2 ^ 29 - 1)).foldl addByte createBuffer).len = 5 * 2 ^ 29 - 1 ∧
    ((zeroFile (5 * 2 ^ 29 - 1)).foldl addByte createBuffer).cap = 5 * 2 ^ 29 ∧
    padBufferChecked ((zeroFile (5 * 2 ^ 29 - 1)).foldl addByte createBuffer) = none := by
  have hlen := zeroFile_length (5 * 2 ^ 29 - 1)
  obtain ⟨hl, hc⟩ := foldl_addByte_cap_top (zeroFile (5 * 2 ^ 29 - 1))
    (by rw [hlen]; decide) (by rw [hlen]; decide)
  exact ⟨zeroFile_bytes _, hlen, readFileChecked_eq _ (by rw [hlen]; decide),
    by rw [hl, hlen], hc,
    padBufferChecked_overflow _ (by rw [hlen]; decide) (by rw [hlen]; decide)⟩

/-- C12 (amended): for every buffer with `len ≤ cap` in which `len < cap`, or
`0 < cap < 2 ^ 31` (so that the doubled capacity is not zero and fits the 32-bit
field), and every byte `x`, `addByte` stays within the heap array, increases `len` by
exactly 1, stores `x` at index (old `len`) and leaves every byte at an index below the
old `len` unchanged, whether or not the capacity grew. -/
theorem addByte_frame (b : ByteBuffer) (x : Nat) (hle : b.len ≤ b.cap) (hcap : b.cap < 2 ^ 32)
    (hroom : b.len < b.cap ∨ (0 < b.cap ∧ b.cap < 2 ^ 31))
    (hwf : b.len ≤ b.data.length) (hx : x < 256) :
    addByteChecked b x = some (addByte b x) ∧
    b.len < (addByte b x).cap ∧
    (addByte b x).len = b.len + 1 ∧
    (addByte b x).data[b.len]? = some x ∧
    ∀ i, i < b.len → (addByte b x).data[i]? = b.data[i]? := by
  have hdef : (addByte b x).cap = if b.len ≥ b.cap then (b.cap * 2) % WORD else b.cap := rfl
  have hnew : b.len < (addByte b x).cap := by
    rw [hdef]
    by_cases hfull : b.len ≥ b.cap
    · rw [if_pos hfull, Nat.mod_eq_of_lt (by unfold WORD; omega)]
      omega
    · rw [if_neg hfull]
      omega
  refine ⟨addByteChecked_of_lt b x hnew, hnew, ?_, ?_, fun i hi => ?_⟩
  · rw [addByte_len]; exact Nat.mod_eq_of_lt (by unfold WORD; omega)
  · rw [addByte_data, store_getElem?_self _ _ _ hwf, Nat.mod_eq_of_lt hx]
  · rw [addByte_data, store_getElem?_ne _ _ _ _ hwf (by omega)]

/-- Witness for `addByte_frame`: the sixth byte added to a fresh buffer, where
`len = cap = 5` and the capacity grows to 10. -/
theorem addByte_frame_witness :
    ([118, 119, 120, 121, 122].foldl addByte createBuffer).len = 5 ∧
    ([118, 119, 120, 121, 122].foldl addByte createBuffer).cap = 5 ∧
    (addByte ([118, 119, 120, 121, 122].foldl addByte createBuffer) 33).cap = 10 ∧
    addByteChecked ([118, 119, 120, 121, 122].foldl addByte createBuffer) 33
      = some (addByte ([118, 119, 120, 121, 122].foldl addByte createBuffer) 33) ∧
    ([118, 119, 120, 121, 122].foldl addByte createBuffer).len
      < (addByte ([118, 119, 120, 121, 122].foldl addByte createBuffer) 33).cap ∧
    (addByte ([118, 119, 120, 121, 122].foldl addByte createBuffer) 33).len
      = ([118, 119, 120, 121, 122].foldl addByte createBuffer).len + 1 ∧
    (addByte ([118, 119, 120, 121, 122].foldl addByte createBuffer) 33).data[
      ([118, 119, 120, 121, 122].foldl addByte createBuffer).len]? = some 33 ∧
    ∀ i, i < ([118, 119, 120, 121, 122].foldl addByte createBuffer).len →
      (addByte ([118, 119, 120, 121, 122].foldl addByte createBuffer) 33).data[i]?
        = ([118, 119, 120, 121, 122].foldl addByte createBuffer).data[i]? :=
  ⟨by decide, by decide, by decide,
    addByte_frame ([118, 119, 120, 121, 122].foldl addByte createBuffer) 33
      (by decide) (by decide) (by decide) (by decide) (by decide)⟩

/-- C12 (counterexample): the buffer that `createBuffer` and `5 * 2 ^ 29` calls of
`addByte` build has `len = cap = 5 * 2 ^ 29`, so `len ≤ cap` holds.  The next call of
`addByte` doubles the capacity as an `unsigned int`, which gives `2 ^ 30`, below `len`:
index (old `len`) is not a cell of the array, and the call has no defined result.  The
same happens on a buffer with `len = cap = 2 ^ 31`, where the doubled capacity is 0. -/
theorem addByte_frame_counterexample :
    ((zeroFile (5 * 2 ^ 29)).foldl addByte createBuffer).len
      ≤ ((zeroFile (5 * 2 ^ 29)).foldl addByte createBuffer).cap ∧
    ((zeroFile (5 * 2 ^ 29)).foldl addByte createBuffer).len = 5 * 2 ^ 29 ∧
    ((zeroFile (5 * 2 ^ 29)).foldl addByte createBuffer).cap = 5 * 2 ^ 29 ∧
    (addByte ((zeroFile (5 * 2 ^ 29)).foldl addByte createBuffer) 33).cap = 2 ^ 30 ∧
    addByteChecked ((zeroFile (5 * 2 ^ 29)).foldl addByte createBuffer) 33 = none ∧
    (fullBuffer (2 ^ 31)).len ≤ (fullBuffer (2 ^ 31)).cap ∧
    (addByte (fullBuffer (2 ^ 31)) 33).cap = 0 ∧
    addByteChecked (fullBuffer (2 ^ 31)) 33 = none := by
  have hlen := zeroFile_length (5 * 2 ^ 29)
  obtain ⟨hl, hc⟩ := foldl_addByte_cap_top (zeroFile (5 * 2 ^ 29))
    (by rw [hlen]; decide) (Nat.le_of_eq hlen)
  rw [hlen] at hl
  obtain ⟨hnew, hnone⟩ := addByte_cap_top _ 33 hl hc
  have hfull : (addByte (fullBuffer (2 ^ 31)) 33).cap = 0 := by
    rw [addByte_cap_full _ _ (Nat.le_refl _)]
    decide
  exact ⟨by rw [hl, hc], hl, hc, hnew, hnone, Nat.le_refl _, hfull,
    addByteChecked_of_le _ _ (by rw [hfull]; exact Nat.zero_le _)⟩

/-- C13 (amended): for every sequence `bs` of at most `5 * 2 ^ 29` bytes, appending the
bytes of `bs` in order to a fresh buffer (what `readFile` does with a readable file's
contents) stays within the heap array, and the buffer obtained has `len` equal to the
length of `bs` and its first `len` bytes equal to `bs`. -/
theorem readFile_loads (bs : List Nat) (hb : ∀ b ∈ bs, b < 256)
    (hlen : bs.length ≤ 5 * 2 ^ 29) :
    readFileChecked bs = some (bs.foldl addByte createBuffer) ∧
    readFile (some bs) = some (bs.foldl addByte createBuffer) ∧
    (bs.foldl addByte createBuffer).len = bs.length ∧
    (bs.foldl addByte createBuffer).data.take (bs.foldl addByte createBuffer).len = bs := by
  obtain ⟨h1, h2, _⟩ := readFile_buffer bs (by unfold WORD; omega) hb
  exact ⟨readFileChecked_eq bs hlen, rfl, h1, h2⟩

/-- Witness for `readFile_loads`: the file holding `testing 1, 2, 3...`. -/
theorem readFile_loads_witness :
    (∀ b ∈ testingMessage, b < 256) ∧ testingMessage.length ≤ 5 * 2 ^ 29 ∧
    readFileChecked testingMessage = some (testingMessage.foldl addByte createBuffer) ∧
    readFile (some testingMessage) = some (testingMessage.foldl addByte createBuffer) ∧
    (testingMessage.foldl addByte createBuffer).len = testingMessage.length ∧
    (testingMessage.foldl addByte createBuffer).data.take
      (testingMessage.foldl addByte createBuffer).len = testingMessage :=
  ⟨by decide, by decide, readFile_loads testingMessage (by decide) (by decide)⟩

/-- C13 (counterexample): for a file of `5 * 2 ^ 29 + 1` zero bytes the loop of
`readFile` has no defined result: after `5 * 2 ^ 29` bytes the buffer has
`len = cap = 5 * 2 ^ 29`, and the call of `addByte` for the last byte doubles the
capacity to `2 ^ 30` (modulo `2 ^ 32`) and stores outside the array.  No buffer with
`len = 5 * 2 ^ 29 + 1` is obtained. -/
theorem readFile_loads_counterexample :
    (∀ b ∈ zeroFile (5 * 2 ^ 29 + 1), b < 256) ∧
    (zeroFile (5 * 2 ^ 29 + 1)).length = 5 * 2 ^ 29 + 1 ∧
    readFileChecked (zeroFile (5 * 2 ^ 29))
      = some ((zeroFile (5 * 2 ^ 29)).foldl addByte createBuffer) ∧
    zeroFile (5 * 2 ^ 29 + 1) = zeroFile (5 * 2 ^ 29) ++ [0] ∧
    addByteChecked ((zeroFile (5 * 2 ^ 29)).foldl addByte createBuffer) 0 = none ∧
    readFileChecked (zeroFile (5 * 2 ^ 29 + 1)) = none := by
  have hlen := zeroFile_length (5 * 2 ^ 29)
  have hlen1 := zeroFile_length (5 * 2 ^ 29 + 1)
  obtain ⟨hl, hc⟩ := foldl_addByte_cap_top (zeroFile (5 * 2 ^ 29))
    (by rw [hlen]; decide) (Nat.le_of_eq hlen)
  rw [hlen] at hl
  refine ⟨zeroFile_bytes _, hlen1, readFileChecked_eq _ (Nat.le_of_eq hlen),
    List.replicate_succ' _ _, (addByte_cap_top _ 0 hl hc).2, ?_⟩
  exact foldlM_addByteChecked_overflow _ createBuffer 0 (by decide) rfl (by decide)
    (by rw [hlen1]; show 5 * 2 ^ 29 < 0 + (5 * 2 ^ 29 + 1); omega)

theorem hashBufferChecked_eq (b : ByteBuffer) (hpos : 0 < b.cap) (hcap : b.cap < WORD)
    (hle : b.len ≤ b.cap) (hL : b.len + 64 ≤ 2 ^ 31) :
    padBufferChecked b = some (padBuffer b) ∧ hashBufferChecked b = some (hashBuffer b) := by
  have hz := zeroCount_small b.len (by omega)
  have hp : padBufferChecked b = some (padBuffer b) := by
    rw [padBufferChecked_eq_foldlM, padBuffer_eq_foldl]
    apply foldlM_addByteChecked_room _ _ hpos hcap hle
    rw [padding_length, hz]
    omega
  have hlen := padBuffer_len_small b (by omega)
  have hdiv := Nat.div_mul_le_self (padBuffer b).len BLOCK_BYTES
  refine ⟨hp, ?_⟩
  unfold hashBufferChecked
  rw [hp]
  simp only
  rw [if_pos (by omega)]
  rfl

theorem hashBufferChecked_none (b : ByteBuffer) (h : padBufferChecked b = none) :
    hashBufferChecked b = none := by
  unfold hashBufferChecked
  rw [h]

/-- C16 (amended): for messages of at most `2 ^ 31 - 64` bytes the digest is a function
of the message bytes alone: two buffers that hold the same byte sequence (the same
`len` and the same first `len` bytes), whatever their capacities `cap > 0` and whatever
lies beyond `len`, both pass through `padBuffer` within the heap array and through the
block loop of `main` within the range of `int`, and give the same output of
`padBuffer`, `hashBlock` over the blocks from the `initState` value and `printHash`: a
40-character digest followed by a newline, whatever the hash state held before
`initState`. -/
theorem hashBuffer_deterministic (b1 b2 : ByteBuffer) (h1 : b1.len ≤ b1.data.length)
    (h2 : b2.len ≤ b2.data.length) (hlen : b1.len = b2.len)
    (hbytes : b1.data.take b1.len = b2.data.take b2.len) (hL : b1.len + 64 ≤ 2 ^ 31)
    (hc1 : 0 < b1.cap ∧ b1.len ≤ b1.cap ∧ b1.cap < 2 ^ 32)
    (hc2 : 0 < b2.cap ∧ b2.len ≤ b2.cap ∧ b2.cap < 2 ^ 32) :
    ∃ d, d.length = 40 ∧
      hashBufferChecked b1 = some (d ++ ['\n']) ∧ hashBufferChecked b2 = some (d ++ ['\n']) ∧
      hashBuffer b1 = d ++ ['\n'] ∧ hashBuffer b2 = d ++ ['\n'] ∧
      ∀ earlier : HashState,
        printHash (hashBlocks (initState earlier) (padBuffer b1).data
          ((padBuffer b1).len / BLOCK_BYTES)) = d ++ ['\n'] := by
  have he := hashBuffer_congr b1 b2 h1 h2 hlen hbytes
  have hs := hashBuffer_eq_foldl b1
  rw [printHash_eq] at hs
  have e1 := (hashBufferChecked_eq b1 hc1.1 hc1.2.2 hc1.2.1 hL).2
  have e2 := (hashBufferChecked_eq b2 hc2.1 hc2.2.2 hc2.2.1 (by omega)).2
  exact ⟨_, digestHex_length _, by rw [e1, hs], by rw [e2, ← he, hs], hs, he ▸ hs,
    fun _ => hs⟩

/-- Witness for `hashBuffer_deterministic`: the bytes `abc` in a buffer of capacity 5
and in a buffer of capacity 80 with stale cells. -/
theorem hashBuffer_deterministic_witness :
    ∃ d, d.length = 40 ∧
      hashBufferChecked abcBuffer = some (d ++ ['\n']) ∧
      hashBufferChecked abcBufferLarge = some (d ++ ['\n']) ∧
      hashBuffer abcBuffer = d ++ ['\n'] ∧ hashBuffer abcBufferLarge = d ++ ['\n'] ∧
      ∀ earlier : HashState,
        printHash (hashBlocks (initState earlier) (padBuffer abcBuffer).data
          ((padBuffer abcBuffer).len / BLOCK_BYTES)) = d ++ ['\n'] :=
  hashBuffer_deterministic abcBuffer abcBufferLarge (by decide) (by decide) (by decide)
    (by decide) (by decide) (by decide) (by decide)

/-- C16 (counterexample): a file of `5 * 2 ^ 29 - 8` zero bytes is read in full and
leaves `cap = 5 * 2 ^ 29`; `padBuffer` has 72 bytes to append and only 8 free cells, the
ninth store finds `len = cap`, the doubled capacity wraps around to `2 ^ 30`, and the
store lies outside the array.  The pipeline has no defined result for this byte
sequence: no 40-character digest comes out. -/
theorem hashBuffer_deterministic_counterexample :
    (zeroFile (5 * 2 ^ 29 - 8)).length = 5 * 2 ^ 29 - 8 ∧
    readFileChecked (zeroFile (5 * 2 ^ 29 - 8))
      = some ((zeroFile (5 * 2 ^ 29 - 8)).foldl addByte createBuffer) ∧
    ((zeroFile (5 * 2 ^ 29 - 8)).foldl addByte createBuffer).cap = 5 * 2 ^ 29 ∧
    (padding (5 * 2 ^ 29 - 8)).length = 72 ∧
    padBufferChecked ((zeroFile (5 * 2 ^ 29 - 8)).foldl addByte createBuffer) = none ∧
    hashBufferChecked ((zeroFile (5 * 2 ^ 29 - 8)).foldl addByte createBuffer) = none := by
  have hlen := zeroFile_length (5 * 2 ^ 29 - 8)
  obtain ⟨_, hc⟩ := foldl_addByte_cap_top (zeroFile (5 * 2 ^ 29 - 8))
    (by rw [hlen]; decide) (by rw [hlen]; decide)
  have hp := padBufferChecked_overflow (zeroFile (5 * 2 ^ 29 - 8)) (by rw [hlen]; decide)
    (by rw [hlen]; decide)
  refine ⟨hlen, readFileChecked_eq _ (by rw [hlen]; decide), hc, ?_, hp,
    hashBufferChecked_none _ hp⟩
  rw [padding_length]
  decide

theorem littleEndian_four (n : Nat) :
    littleEndian 4 n = [n % 256, n / 2 ^ 8 % 256, n / 2 ^ 16 % 256, n / 2 ^ 24 % 256] := by
  simp [littleEndian, List.range_succ]

theorem padBuffer_len_cases (b : ByteBuffer) (hwf : b.len ≤ b.data.length)
    (hL : b.len < 2 ^ 31) :
    (b.len % 64 ≤ 55 → (padBuffer b).len = 64 * (b.len / 64 + 1)) ∧
    (56 ≤ b.len % 64 →
      (padBuffer b).len = b.len + 9 ∧
      (padBuffer b).bytes
        = b.bytes ++ [0x80] ++ littleEndian 4 (8 * b.len % 2 ^ 32) ++ [0, 0, 0, 0]) ∧
    (padBuffer b).len = b.len + 9 + (55 - b.len % 64) := by
  have hlen := padBuffer_len_small b hL
  refine ⟨fun h => by omega, fun h => ⟨by omega, ?_⟩, hlen⟩
  have hz : zeroCount (toInt b.len) = 0 := by rw [zeroCount_small _ hL]; omega
  rw [padBuffer_bytes b hwf (by rw [hz]; unfold WORD; omega), padding_eq, hz, littleEndian_four,
    Nat.mul_comm 8 b.len]
  simp [WORD]

/-- C22 (amended): for every message of `L < 2 ^ 31` bytes, `readFile` and `padBuffer`
stay within the heap array; when `L mod 64 ≤ 55` the buffer length after `padBuffer` is
`64 * (floor (L / 64) + 1)`, and when `L mod 64 ≥ 56` it is `L + 9` (no zero byte is
appended between the `0x80` marker and the length field); that is, the padded length is
`L + 9 + max (0, 55 - (L mod 64))`. -/
theorem padBuffer_len_formula (m : List Nat) (hb : ∀ x ∈ m, x < 256) (hL : m.length < 2 ^ 31) :
    readFileChecked m = some (m.foldl addByte createBuffer) ∧
    padBufferChecked (m.foldl addByte createBuffer)
      = some (padBuffer (m.foldl addByte createBuffer)) ∧
    (m.length % 64 ≤ 55 →
      (padBuffer (m.foldl addByte createBuffer)).len = 64 * (m.length / 64 + 1)) ∧
    (56 ≤ m.length % 64 →
      (padBuffer (m.foldl addByte createBuffer)).len = m.length + 9 ∧
      (padBuffer (m.foldl addByte createBuffer)).bytes
        = m ++ [0x80] ++ littleEndian 4 (8 * m.length % 2 ^ 32) ++ [0, 0, 0, 0]) ∧
    (padBuffer (m.foldl addByte createBuffer)).len
      = m.length + 9 + (55 - m.length % 64) := by
  obtain ⟨hl, hbytes, hwf⟩ := readFile_buffer m (by unfold WORD; omega) hb
  have h := padBuffer_len_cases (m.foldl addByte createBuffer) hwf (by rw [hl]; exact hL)
  rw [hl, hbytes] at h
  exact ⟨readFileChecked_eq m (by omega), padBufferChecked_eq m (by omega), h⟩

/-- Witness for `padBuffer_len_formula`: the 56-byte message, for which no zero byte is
appended. -/
theorem padBuffer_len_formula_witness :
    (∀ x ∈ message56, x < 256) ∧ message56.length < 2 ^ 31 ∧
    readFileChecked message56 = some (message56.foldl addByte createBuffer) ∧
    padBufferChecked (message56.foldl addByte createBuffer)
      = some (padBuffer (message56.foldl addByte createBuffer)) ∧
    (message56.length % 64 ≤ 55 →
      (padBuffer (message56.foldl addByte createBuffer)).len
        = 64 * (message56.length / 64 + 1)) ∧
    (56 ≤ message56.length % 64 →
      (padBuffer (message56.foldl addByte createBuffer)).len = message56.length + 9 ∧
      (padBuffer (message56.foldl addByte createBuffer)).bytes
        = message56 ++ [0x80] ++ littleEndian 4 (8 * message56.length % 2 ^ 32)
          ++ [0, 0, 0, 0]) ∧
    (padBuffer (message56.foldl addByte createBuffer)).len
      = message56.length + 9 + (55 - message56.length % 64) :=
  ⟨by decide, by decide, padBuffer_len_formula message56 (by decide) (by decide)⟩

/-- C22 (counterexample): a file of `2 ^ 31 + 1` zero bytes is read in full and leaves
`len = 2 ^ 31 + 1` and `cap = 5 * 2 ^ 29`, so the 127 bytes `padBuffer` appends all lie
within the array.  `L mod 64 = 1`, but `int length` is negative there, the zero-fill
loop runs 118 times and the length after `padBuffer` is `2 ^ 31 + 128`, not
`64 * (floor (L / 64) + 1) = 2 ^ 31 + 64`. -/
theorem padBuffer_len_formula_counterexample :
    readFileChecked (zeroFile (2 ^ 31 + 1))
      = some ((zeroFile (2 ^ 31 + 1)).foldl addByte createBuffer) ∧
    ((zeroFile (2 ^ 31 + 1)).foldl addByte createBuffer).len = 2 ^ 31 + 1 ∧
    ((zeroFile (2 ^ 31 + 1)).foldl addByte createBuffer).cap = 5 * 2 ^ 29 ∧
    (2 ^ 31 + 1) % 64 = 1 ∧
    toInt (2 ^ 31 + 1) = -(2 ^ 31 - 1) ∧
    zeroCount (toInt (2 ^ 31 + 1)) = 118 ∧
    padBufferChecked ((zeroFile (2 ^ 31 + 1)).foldl addByte createBuffer)
      = some (padBuffer ((zeroFile (2 ^ 31 + 1)).foldl addByte createBuffer)) ∧
    (padBuffer ((zeroFile (2 ^ 31 + 1)).foldl addByte createBuffer)).len = 2 ^ 31 + 128 ∧
    (padBuffer ((zeroFile (2 ^ 31 + 1)).foldl addByte createBuffer)).len
      ≠ 64 * ((2 ^ 31 + 1) / 64 + 1) ∧
    (padBuffer ((zeroFile (2 ^ 31 + 1)).foldl addByte createBuffer)).len
      ≠ (2 ^ 31 + 1) + 9 + (55 - (2 ^ 31 + 1) % 64) := by
  have hlen := zeroFile_length (2 ^ 31 + 1)
  obtain ⟨hl, hc⟩ := foldl_addByte_cap_top (zeroFile (2 ^ 31 + 1))
    (by rw [hlen]; decide) (by rw [hlen]; decide)
  rw [hlen] at hl
  have hp : (padBuffer ((zeroFile (2 ^ 31 + 1)).foldl addByte createBuffer)).len
      = 2 ^ 31 + 128 := by
    rw [padBuffer_len _ (by rw [hl]; decide), hl]
    decide
  refine ⟨readFileChecked_eq _ (by rw [hlen]; decide), hl, hc, by decide, by decide, by decide,
    padBufferChecked_eq _ (by rw [hlen]; decide), hp, ?_, ?_⟩
  · rw [hp]; decide
  · rw [hp]; decide

theorem hashBlocks_eq_foldl (hash : HashState) (data : List Nat) (n : Nat) :
    hashBlocks hash data n = ((List.range n).map (blockAt data)).foldl hashBlock hash := by
  unfold hashBlocks
  rw [List.foldl_map]

theorem map_blockAt_take (data : List Nat) (n : Nat) :
    (List.range n).map (blockAt (data.take (BLOCK_BYTES * n)))
      = (List.range n).map (blockAt data) := by
  apply List.map_congr_left
  intro i hi
  rw [List.mem_range] at hi
  exact blockAt_take data i _ (Nat.mul_le_mul_left _ hi)

theorem padBuffer_numBlocks (b : ByteBuffer) (hL : b.len < 2 ^ 29) :
    (padBuffer b).len / BLOCK_BYTES = b.len / 64 + 1 ∧
    64 * (b.len / 64 + 1) ≤ (padBuffer b).len := by
  have hlen := padBuffer_len_small b (by omega)
  unfold BLOCK_BYTES
  omega

theorem padding_injective (m1 m2 : List Nat) (h1 : m1.length < 2 ^ 29)
    (h2 : m2.length < 2 ^ 29) (h : m1 ++ padding m1.length = m2 ++ padding m2.length) :
    m1 = m2 := by
  have z1 := zeroCount_small m1.length (by omega)
  have z2 := zeroCount_small m2.length (by omega)
  have hl := congrArg List.length h
  rw [List.length_append, List.length_append, padding_length, padding_length] at hl
  have split : ∀ m : List Nat,
      m ++ padding m.length
        = (m ++ [0x80] ++ List.replicate (zeroCount (toInt m.length)) 0) ++
          ([(m.length * 8 % WORD) % 256, (m.length * 8 % WORD) / 2 ^ 8 % 256,
            (m.length * 8 % WORD) / 2 ^ 16 % 256, (m.length * 8 % WORD) / 2 ^ 24 % 256] ++
            [0, 0, 0, 0]) := by
    intro m
    rw [padding_eq]
    simp only [List.append_assoc]
  have hd := congrArg (List.drop (m1.length + 1 + zeroCount (toInt m1.length))) h
  rw [split m1, split m2, List.drop_left' (by simp; omega), List.drop_left' (by simp; omega)]
    at hd
  simp only [List.cons_append, List.nil_append, List.cons.injEq, and_true, WORD] at hd
  obtain ⟨b0, b1, b2, b3⟩ := hd
  have hlen : m1.length = m2.length := by omega
  have ht := congrArg (List.take m1.length) h
  rw [List.take_left, hlen, List.take_left] at ht
  exact ht

theorem foldl_addByte_exact (xs : List Nat) (b : ByteBuffer) (h : b.data.length = b.len)
    (hno : b.len + xs.length < WORD) :
    (xs.foldl addByte b).data.length = (xs.foldl addByte b).len := by
  induction xs generalizing b with
  | nil => exact h
  | cons x xs ih =>
    simp only [List.foldl_cons, List.length_cons] at *
    apply ih
    · rw [addByte_data, addByte_len, Nat.mod_eq_of_lt (show b.len + 1 < WORD by omega)]
      unfold store
      rw [if_neg (by omega), List.length_append, h]
      rfl
    · rw [addByte_len, Nat.mod_eq_of_lt (show b.len + 1 < WORD by omega)]; omega

theorem padded_message_data (msg : List Nat) (hlen : msg.length + 128 ≤ WORD)
    (hb : ∀ b ∈ msg, b < 256) :
    (padBuffer (msg.foldl addByte createBuffer)).data = msg ++ padding msg.length := by
  obtain ⟨l, p⟩ := padded_message msg hlen hb
  have hno := padBuffer_noWrap msg.length hlen
  have hex : (padBuffer (msg.foldl addByte createBuffer)).data.length
      = (padBuffer (msg.foldl addByte createBuffer)).len := by
    rw [padBuffer_eq_foldl, ← List.foldl_append]
    apply foldl_addByte_exact _ _ rfl
    obtain ⟨h1, _, _⟩ := readFile_buffer msg (by omega) hb
    rw [h1] at *
    rw [List.length_append, padding_length]
    show 0 + _ < _
    omega
  rw [← p]
  unfold ByteBuffer.bytes
  rw [List.take_of_length_le (by omega)]

theorem join_blockAt (l : List Nat) (n : Nat) (h : 64 * n ≤ l.length) :
    ((List.range n).map (blockAt l)).flatten = l.take (64 * n) := by
  induction n with
  | zero => simp
  | succ n ih =>
    rw [List.range_succ, List.map_append, List.flatten_append, ih (by omega)]
    simp only [List.map_cons, List.map_nil, List.flatten_cons, List.flatten_nil, List.append_nil]
    unfold blockAt BLOCK_BYTES
    rw [Nat.mul_comm n 64, Nat.mul_succ, List.take_add]

theorem blockAt_length (l : List Nat) (i : Nat) (h : 64 * (i + 1) ≤ l.length) :
    (blockAt l i).length = 64 := by
  unfold blockAt BLOCK_BYTES
  rw [List.length_take, List.length_drop]
  omega

/-- C23: for every message of `L < 2 ^ 29` bytes, the driver compresses exactly
`floor (L / 64) + 1` blocks: the text `main` prints is `printHash` of the state that
`hashBlock` produces from the `initState` value over the `floor (L / 64) + 1` blocks
of 64 bytes that make up the first `64 * (floor (L / 64) + 1)` bytes of the padded
buffer, in order; the bytes of the padded buffer beyond that point do not influence
the digest. -/
theorem main_blocks (m : List Nat) (hb : ∀ x ∈ m, x < 256) (hL : m.length < 2 ^ 29) :
    (padBuffer (m.foldl addByte createBuffer)).data = m ++ padding m.length ∧
    (padBuffer (m.foldl addByte createBuffer)).len / BLOCK_BYTES = m.length / 64 + 1 ∧
    64 * (m.length / 64 + 1) ≤ (padBuffer (m.foldl addByte createBuffer)).len ∧
    main 2 (some m)
      = { status := EXIT_SUCCESS
          stdout := printHash
            (((List.range (m.length / 64 + 1)).map
                (blockAt ((m ++ padding m.length).take (64 * (m.length / 64 + 1))))).foldl
              hashBlock (initState { A := 0, B := 0, C := 0, D := 0, E := 0 })) } ∧
    ((List.range (m.length / 64 + 1)).map
        (blockAt ((m ++ padding m.length).take (64 * (m.length / 64 + 1))))).length
      = m.length / 64 + 1 ∧
    (∀ i, i < m.length / 64 + 1 →
      (blockAt ((m ++ padding m.length).take (64 * (m.length / 64 + 1))) i).length = 64) ∧
    ((List.range (m.length / 64 + 1)).map
        (blockAt ((m ++ padding m.length).take (64 * (m.length / 64 + 1))))).flatten
      = (m ++ padding m.length).take (64 * (m.length / 64 + 1)) ∧
    ∀ data : List Nat,
      data.take (64 * (m.length / 64 + 1))
        = (m ++ padding m.length).take (64 * (m.length / 64 + 1)) →
      printHash (hashBlocks (initState { A := 0, B := 0, C := 0, D := 0, E := 0 }) data
        ((padBuffer (m.foldl addByte createBuffer)).len / BLOCK_BYTES))
        = (main 2 (some m)).stdout := by
  obtain ⟨hl, _, _⟩ := readFile_buffer m (by unfold WORD; omega) hb
  have hdata := padded_message_data m (by unfold WORD; omega) hb
  obtain ⟨hn, hle⟩ := padBuffer_numBlocks (m.foldl addByte createBuffer) (by rw [hl]; exact hL)
  rw [hl] at hn hle
  have hplen : (m ++ padding m.length).length = (padBuffer (m.foldl addByte createBuffer)).len := by
    obtain ⟨l, _⟩ := padded_message m (by unfold WORD; omega) hb
    rw [l, List.length_append, padding_length]
  have htake : ((m ++ padding m.length).take (64 * (m.length / 64 + 1))).length
      = 64 * (m.length / 64 + 1) := by
    rw [List.length_take]; omega
  have hfed : blocksFed (padBuffer (m.foldl addByte createBuffer))
      = (List.range (m.length / 64 + 1)).map
        (blockAt ((m ++ padding m.length).take (64 * (m.length / 64 + 1)))) := by
    unfold blocksFed
    rw [hn, hdata]
    exact (map_blockAt_take (m ++ padding m.length) (m.length / 64 + 1)).symm
  have hmain : main 2 (some m)
      = { status := EXIT_SUCCESS, stdout := hashBuffer (m.foldl addByte createBuffer) } := rfl
  have hout : hashBuffer (m.foldl addByte createBuffer)
      = printHash
        (((List.range (m.length / 64 + 1)).map
            (blockAt ((m ++ padding m.length).take (64 * (m.length / 64 + 1))))).foldl
          hashBlock (initState { A := 0, B := 0, C := 0, D := 0, E := 0 })) := by
    rw [hashBuffer_eq_foldl, hfed]
  refine ⟨hdata, hn, hle, by rw [hmain, hout], ?_, fun i hi => ?_, ?_, fun data hd => ?_⟩
  · rw [List.length_map, List.length_range]
  · exact blockAt_length _ i (by rw [htake]; omega)
  · rw [join_blockAt _ _ (by rw [htake]), List.take_take, Nat.min_self]
  · rw [hmain]
    show _ = hashBuffer (m.foldl addByte createBuffer)
    rw [hout, hashBlocks_eq_foldl, hn, ← map_blockAt_take data]
    show printHash (List.foldl hashBlock _ (List.map
      (blockAt (List.take (64 * (m.length / 64 + 1)) data)) _)) = _
    rw [hd]

/-- Witness for `main_blocks`: the 56-byte message, whose padded buffer has 65 bytes,
of which one block of 64 bytes is compressed. -/
theorem main_blocks_witness :
    (∀ x ∈ message56, x < 256) ∧ message56.length < 2 ^ 29 ∧
    (padBuffer (message56.foldl addByte createBuffer)).data
      = message56 ++ padding message56.length ∧
    (padBuffer (message56.foldl addByte createBuffer)).len / BLOCK_BYTES
      = message56.length / 64 + 1 ∧
    64 * (message56.length / 64 + 1) ≤ (padBuffer (message56.foldl addByte createBuffer)).len ∧
    main 2 (some message56)
      = { status := EXIT_SUCCESS
          stdout := printHash
            (((List.range (message56.length / 64 + 1)).map
                (blockAt ((message56 ++ padding message56.length).take
                  (64 * (message56.length / 64 + 1))))).foldl
              hashBlock (initState { A := 0, B := 0, C := 0, D := 0, E := 0 })) } ∧
    ((List.range (message56.length / 64 + 1)).map
        (blockAt ((message56 ++ padding message56.length).take
          (64 * (message56.length / 64 + 1))))).length
      = message56.length / 64 + 1 ∧
    (∀ i, i < message56.length / 64 + 1 →
      (blockAt ((message56 ++ padding message56.length).take
        (64 * (message56.length / 64 + 1))) i).length = 64) ∧
    ((List.range (message56.length / 64 + 1)).map
        (blockAt ((message56 ++ padding message56.length).take
          (64 * (message56.length / 64 + 1))))).flatten
      = (message56 ++ padding message56.length).take (64 * (message56.length / 64 + 1)) ∧
    ∀ data : List Nat,
      data.take (64 * (message56.length / 64 + 1))
        = (message56 ++ padding message56.length).take (64 * (message56.length / 64 + 1)) →
      printHash (hashBlocks (initState { A := 0, B := 0, C := 0, D := 0, E := 0 }) data
        ((padBuffer (message56.foldl addByte createBuffer)).len / BLOCK_BYTES))
        = (main 2 (some message56)).stdout :=
  ⟨by decide, by decide, main_blocks message56 (by decide) (by decide)⟩

/-- C24: `padBuffer` is injective on messages shorter than `2 ^ 29` bytes: if two such
messages yield the same byte sequence after `padBuffer`, the messages are equal. -/
theorem padBuffer_injective (m1 m2 : List Nat) (hb1 : ∀ b ∈ m1, b < 256)
    (hb2 : ∀ b ∈ m2, b < 256) (h1 : m1.length < 2 ^ 29) (h2 : m2.length < 2 ^ 29)
    (h : (padBuffer (m1.foldl addByte createBuffer)).data
      = (padBuffer (m2.foldl addByte createBuffer)).data) :
    m1 = m2 := by
  rw [padded_message_data m1 (by unfold WORD; omega) hb1,
    padded_message_data m2 (by unfold WORD; omega) hb2] at h
  exact padding_injective m1 m2 h1 h2 h

/-- Witness for `padBuffer_injective`: the message `testing 1, 2, 3...` taken twice. -/
theorem padBuffer_injective_witness :
    (∀ b ∈ testingMessage, b < 256) ∧ testingMessage.length < 2 ^ 29 ∧
    testingMessage = testingMessage :=
  ⟨by decide, by decide,
    padBuffer_injective testingMessage testingMessage (by decide) (by decide) (by decide)
      (by decide) rfl⟩

end RipeMD
